import Mathlib

/-!
# Verification of the nest-agent orchestration core

Shallow embedding of the orchestration graph model, execution engine and
streaming event normalizer of the `nest-agent` repository, together with
proofs about the claims of its specification.

The embedding covers:

* the AG-UI protocol event model (`src/common/interfaces/ag-ui-events.ts`);
* the streaming event normalizer `AgentService.processStreamEvents`
  (`src/agent/agent.service.ts`), modelled as a fold over the raw
  LangGraph `streamEvents` signal stream;
* the DAG engine `DagEngine.compile` / `createNodeFn` (`dag-engine.ts`);
* the supervisor graph factory `SupervisorFactory.createSupervisorGraph`
  (`supervisor.factory.ts`);
* the run wrapper `AgentService.execute` and the SSE framing of
  `ChatController.chatCompletions` (`chat.controller.ts`);
* the message conversion `AgentService.toLangChainMessages`.

`randomUUID` (`genId`) is modelled by a per-run counter of `fresh`
identifiers, kept disjoint by construction from identifiers supplied by
the raw stream (`ext`); this models the assumption that freshly generated
UUIDs never collide with each other or with model-supplied tool-call ids.
-/

namespace NestAgent

/-- An opaque event id.  `ext s` is an id carried by the raw signal stream
(e.g. a model-supplied tool-call id); `fresh n` is the `n`-th id produced
by `genId()` (`randomUUID`) during the run. -/
inductive EId where
  | ext (s : String)
  | fresh (n : Nat)
deriving DecidableEq, Repr

/-- The AG-UI protocol events (`EventType` union in `ag-ui-events.ts`),
restricted to the variants the orchestration core emits.  Field layout
follows the TypeScript interfaces. -/
inductive AGUIEvent where
  | runStarted (threadId runId : String)
  | runFinished (threadId runId : String)
  | runError (message : String)
  | stepStarted (stepName : String)
  | stepFinished (stepName : String)
  | textMessageStart (messageId : EId) (role : String)
  | textMessageContent (messageId : EId) (delta : String)
  | textMessageEnd (messageId : EId)
  | toolCallStart (toolCallId : String) (toolCallName : String) (parentMessageId : EId)
  | toolCallArgs (toolCallId : String) (delta : String)
  | toolCallEnd (toolCallId : String)
  | toolCallResult (messageId : EId) (toolCallId : EId) (role : String) (content : String)
deriving DecidableEq, Repr

/-- One fragment of a streamed tool call (`chunk.tool_call_chunks[i]`).
Missing `id`/`name`/`args` fields are modelled as `""`, matching the
`tc.id || ''` / truthiness tests of the source. -/
structure ToolCallChunk where
  id : String
  name : String
  args : String
deriving DecidableEq, Repr

/-- A streamed LLM chunk (`data.chunk` of an `on_chat_model_stream`
event).  `content = some t` models `typeof chunk.content === 'string'`;
`none` models a non-string content payload. -/
structure StreamChunk where
  toolCallChunks : List ToolCallChunk
  content : Option String
deriving DecidableEq, Repr

/-- A raw LangGraph `streamEvents` (v2) signal, restricted to the shape
`processStreamEvents` destructures: the `event` name, the
`metadata.langgraph_node` tag and the parts of `data` each branch reads.
`other` covers every signal the loop body ignores (including stream/end
events whose `data.chunk` / `data.output` is absent). -/
inductive RawEvent where
  /-- `on_chat_model_stream` with `data.chunk` present. -/
  | chatModelStream (langgraphNode : String) (chunk : StreamChunk)
  /-- `on_chat_model_end` with `data.output` present; only the ids of
  `output.tool_calls` are consulted (each `tc.id || ''`). -/
  | chatModelEnd (langgraphNode : String) (toolCallIds : List String)
  /-- `on_tool_end` with `data.output` present. `metaToolCallId` is
  `metadata?.langgraph_tool_call_id`; `output` is the string content the
  source extracts from `data.output`. -/
  | toolEnd (metaToolCallId : Option String) (output : String)
  /-- `on_chain_end`; `isTopLevel` is the value of
  `metadata?.langgraph_step !== undefined && !metadata?.langgraph_checkpoint_ns`. -/
  | chainEnd (langgraphNode : String) (isTopLevel : Bool)
  | other
deriving DecidableEq, Repr

/-- The per-run mutable state of `processStreamEvents`:
`currentMessageId`, the `activeSteps` / `emittedToolCalls` /
`emittedToolResults` sets (as lists, most recent first) and the `genId`
counter. -/
structure NormState where
  currentMessageId : Option EId
  activeSteps : List String
  emittedToolCalls : List String
  emittedToolResults : List EId
  nextId : Nat
deriving DecidableEq, Repr

/-- Initial normalizer state at the top of `processStreamEvents`. -/
def initNormState : NormState := ⟨none, [], [], [], 0⟩

/-- One iteration of the `for (const tc of chunk.tool_call_chunks)` loop:
emit `TOOL_CALL_START` on first sight of a non-empty id (recording it in
`emittedToolCalls`, with a `genId()` parent message id), then
`TOOL_CALL_ARGS` when `tc.args` is non-empty. -/
def processToolChunkOne (st : NormState) (tc : ToolCallChunk) :
    NormState × List AGUIEvent :=
  if tc.id ≠ "" ∧ tc.id ∉ st.emittedToolCalls then
    if tc.id ≠ "" ∧ tc.args ≠ "" then
      ({ st with emittedToolCalls := tc.id :: st.emittedToolCalls, nextId := st.nextId + 1 },
        [AGUIEvent.toolCallStart tc.id tc.name (EId.fresh st.nextId),
         AGUIEvent.toolCallArgs tc.id tc.args])
    else
      ({ st with emittedToolCalls := tc.id :: st.emittedToolCalls, nextId := st.nextId + 1 },
        [AGUIEvent.toolCallStart tc.id tc.name (EId.fresh st.nextId)])
  else
    if tc.id ≠ "" ∧ tc.args ≠ "" then (st, [AGUIEvent.toolCallArgs tc.id tc.args])
    else (st, [])

/-- The whole `tool_call_chunks` loop. -/
def processToolChunks (st : NormState) : List ToolCallChunk → NormState × List AGUIEvent
  | [] => (st, [])
  | tc :: rest =>
    let (st1, out1) := processToolChunkOne st tc
    let (st2, out2) := processToolChunks st1 rest
    (st2, out1 ++ out2)

/-- A non-empty text token: emit `TEXT_MESSAGE_CONTENT` into the open
message, opening a fresh one with `TEXT_MESSAGE_START` first when none
is open. -/
def processTextToken (st : NormState) (t : String) : NormState × List AGUIEvent :=
  if t ≠ "" then
    match st.currentMessageId with
    | some mid => (st, [AGUIEvent.textMessageContent mid t])
    | none =>
      ({ st with currentMessageId := some (EId.fresh st.nextId),
                  nextId := st.nextId + 1 },
        [AGUIEvent.textMessageStart (EId.fresh st.nextId) "assistant",
         AGUIEvent.textMessageContent (EId.fresh st.nextId) t])
  else (st, [])

/-- The part of the `on_chat_model_stream` branch after the
`STEP_STARTED` bookkeeping: forward tool-call fragments, or text tokens
(`textContent` is `chunk.content` when it is a string, else `''`). -/
def processChunkBody (st : NormState) (chunk : StreamChunk) :
    NormState × List AGUIEvent :=
  if chunk.toolCallChunks ≠ [] then processToolChunks st chunk.toolCallChunks
  else
    match chunk.content with
    | some t => processTextToken st t
    | none => (st, [])

/-- The `on_chat_model_stream` branch: skip the supervisor routing node,
ensure a `STEP_STARTED` for the node, then handle the chunk payload. -/
def processChunk (st : NormState) (node : String) (chunk : StreamChunk) :
    NormState × List AGUIEvent :=
  if node = "supervisor" then (st, [])
  else if node ≠ "" ∧ node ∉ st.activeSteps then
    let (st2, out) := processChunkBody { st with activeSteps := node :: st.activeSteps } chunk
    (st2, AGUIEvent.stepStarted node :: out)
  else processChunkBody st chunk

/-- The `on_chat_model_end` branch: skip the supervisor node, emit
`TOOL_CALL_END` for every finished tool call whose start was emitted,
then close the open text message if any. -/
def processModelEnd (st : NormState) (node : String) (ids : List String) :
    NormState × List AGUIEvent :=
  if node = "supervisor" then (st, [])
  else
    let ends := (ids.filter fun id => id ≠ "" ∧ id ∈ st.emittedToolCalls).map
      AGUIEvent.toolCallEnd
    match st.currentMessageId with
    | some mid => ({ st with currentMessageId := none }, ends ++ [AGUIEvent.textMessageEnd mid])
    | none => (st, ends)

/-- `metadata?.langgraph_tool_call_id || genId()`: the id keying the
tool result, consuming a fresh id when the metadata id is absent or
empty (falsy). -/
def toolEndId (st : NormState) (metaId : Option String) : EId × NormState :=
  match metaId with
  | some s =>
    if s ≠ "" then (EId.ext s, st)
    else (EId.fresh st.nextId, { st with nextId := st.nextId + 1 })
  | none => (EId.fresh st.nextId, { st with nextId := st.nextId + 1 })

/-- The `on_tool_end` branch: the result is keyed by `toolEndId` and
deduplicated via `emittedToolResults`; the result carries a fresh
message id. -/
def processToolEnd (st : NormState) (metaId : Option String) (output : String) :
    NormState × List AGUIEvent :=
  if (toolEndId st metaId).1 ∈ (toolEndId st metaId).2.emittedToolResults then
    ((toolEndId st metaId).2, [])
  else
    ({ (toolEndId st metaId).2 with
        emittedToolResults := (toolEndId st metaId).1 ::
          (toolEndId st metaId).2.emittedToolResults,
        nextId := (toolEndId st metaId).2.nextId + 1 },
      [AGUIEvent.toolCallResult (EId.fresh (toolEndId st metaId).2.nextId)
        (toolEndId st metaId).1 "tool" output])

/-- The `on_chain_end` branch: at a node's outermost exit, flush the open
text message and emit `STEP_FINISHED`, clearing the step from
`activeSteps`. -/
def processChainEnd (st : NormState) (node : String) (top : Bool) :
    NormState × List AGUIEvent :=
  if node ≠ "" ∧ node ∈ st.activeSteps ∧ top = true then
    let (st1, closing) :=
      match st.currentMessageId with
      | some mid => ({ st with currentMessageId := none }, [AGUIEvent.textMessageEnd mid])
      | none => (st, ([] : List AGUIEvent))
    ({ st1 with activeSteps := st1.activeSteps.erase node },
      closing ++ [AGUIEvent.stepFinished node])
  else (st, [])

/-- One iteration of the `for await (const event of eventStream)` loop of
`AgentService.processStreamEvents`. -/
def processOne (st : NormState) : RawEvent → NormState × List AGUIEvent
  | RawEvent.chatModelStream node chunk => processChunk st node chunk
  | RawEvent.chatModelEnd node ids => processModelEnd st node ids
  | RawEvent.toolEnd metaId output => processToolEnd st metaId output
  | RawEvent.chainEnd node top => processChainEnd st node top
  | RawEvent.other => (st, [])

/-- The whole loop, threading the normalizer state and concatenating the
emitted events in order. -/
def runNorm (st : NormState) : List RawEvent → NormState × List AGUIEvent
  | [] => (st, [])
  | e :: rest =>
    let (st1, out1) := processOne st e
    let (st2, out2) := runNorm st1 rest
    (st2, out1 ++ out2)

/-- `AgentService.processStreamEvents`: run the loop from the initial
state, then synthesize a final `TEXT_MESSAGE_END` if a text message is
still open when the raw stream ends. -/
def processStream (evs : List RawEvent) : List AGUIEvent :=
  match (runNorm initNormState evs).1.currentMessageId with
  | some mid => (runNorm initNormState evs).2 ++ [AGUIEvent.textMessageEnd mid]
  | none => (runNorm initNormState evs).2

/-! ## Well-formedness checkers for the emitted protocol stream

`textScan` and `toolScan` are reference acceptors, written from the
spec's pairing rules, against which the normalizer's output is checked.
A scan returning `none` means the stream violates the discipline. -/

/-- State of the text-message acceptor: the currently open message id
and every message id ever started. -/
structure TextScanState where
  openMsg : Option EId
  seenMsgs : List EId
deriving DecidableEq, Repr

/-- One step of the text-message acceptor: a `START` is only legal when
no message is open and its id was never used before; `CONTENT`/`END` are
only legal for the currently open id.  All other events are ignored. -/
def textStep (s : TextScanState) : AGUIEvent → Option TextScanState
  | AGUIEvent.textMessageStart mid _ =>
    if s.openMsg = none ∧ mid ∉ s.seenMsgs then
      some ⟨some mid, mid :: s.seenMsgs⟩
    else none
  | AGUIEvent.textMessageContent mid _ =>
    if s.openMsg = some mid then some s else none
  | AGUIEvent.textMessageEnd mid =>
    if s.openMsg = some mid then some ⟨none, s.seenMsgs⟩ else none
  | _ => some s

/-- Run the text-message acceptor over a stream. -/
def textScan (s : TextScanState) : List AGUIEvent → Option TextScanState
  | [] => some s
  | e :: rest =>
    match textStep s e with
    | some s1 => textScan s1 rest
    | none => none

/-- A stream is text-well-formed when the acceptor accepts it and no
message is left open at the end: every `TEXT_MESSAGE_START` has exactly
one later `TEXT_MESSAGE_END` with the same id, every `CONTENT` lies
strictly between its `START` and its `END`, and a new message never
starts while one is open. -/
def textOk (out : List AGUIEvent) : Bool :=
  match textScan ⟨none, []⟩ out with
  | some s => s.openMsg.isNone
  | none => false

/-- State of the tool-call acceptor: ids whose `TOOL_CALL_START` was
seen, and ids whose `TOOL_CALL_RESULT` was seen. -/
structure ToolScanState where
  startedCalls : List String
  resultIds : List EId
deriving DecidableEq, Repr

/-- One step of the tool-call acceptor: at most one `START` per id,
`ARGS`/`END` only for ids already started, at most one `RESULT` per id. -/
def toolStep (s : ToolScanState) : AGUIEvent → Option ToolScanState
  | AGUIEvent.toolCallStart id _ _ =>
    if id ∈ s.startedCalls then none
    else some ⟨id :: s.startedCalls, s.resultIds⟩
  | AGUIEvent.toolCallArgs id _ =>
    if id ∈ s.startedCalls then some s else none
  | AGUIEvent.toolCallEnd id =>
    if id ∈ s.startedCalls then some s else none
  | AGUIEvent.toolCallResult _ tid _ _ =>
    if tid ∈ s.resultIds then none
    else some ⟨s.startedCalls, tid :: s.resultIds⟩
  | _ => some s

/-- Run the tool-call acceptor over a stream. -/
def toolScan (s : ToolScanState) : List AGUIEvent → Option ToolScanState
  | [] => some s
  | e :: rest =>
    match toolStep s e with
    | some s1 => toolScan s1 rest
    | none => none

/-- A stream is tool-well-formed when the acceptor accepts it: each
distinct tool-call id has at most one `TOOL_CALL_START` and at most one
`TOOL_CALL_RESULT`, and every `TOOL_CALL_ARGS`/`TOOL_CALL_END` follows
the `TOOL_CALL_START` of its id. -/
def toolOk (out : List AGUIEvent) : Bool :=
  (toolScan ⟨[], []⟩ out).isSome

/-- The number of `TOOL_CALL_END` events for a given id in a stream. -/
def countToolCallEnds (id : String) (out : List AGUIEvent) : Nat :=
  (out.filter fun e => e = AGUIEvent.toolCallEnd id).length

/-- The number of `TOOL_CALL_RESULT` events for a given id in a stream. -/
def countToolCallResults (tid : EId) (out : List AGUIEvent) : Nat :=
  (out.filter fun e =>
    match e with
    | AGUIEvent.toolCallResult _ tid' _ _ => tid' = tid
    | _ => false).length

/-! ## Conversation messages and graph state

LangChain `BaseMessage`s as threaded through the graph state
(`MessagesAnnotation`).  Only the constructor kind and the string content
are relevant to the orchestration core; message ids used by the
`MessagesAnnotation` reducer for de-duplication are abstracted away, and
each node model returns the full post-state message list directly
(a node returning a delta update, like the supervisor routing node,
is modelled by appending that delta, which is what the reducer does). -/

/-- A LangChain message (`HumanMessage` / `AIMessage` / `SystemMessage`). -/
inductive LCMsg where
  | human (content : String)
  | ai (content : String)
  | system (content : String)
deriving DecidableEq, Repr

/-- The string content of a message. -/
def LCMsg.content : LCMsg → String
  | LCMsg.human c => c
  | LCMsg.ai c => c
  | LCMsg.system c => c

/-- A caller-supplied message (`{role, content}`) as accepted by
`AgentService.execute`. -/
structure ChatMessage where
  role : String
  content : String
deriving DecidableEq, Repr

/-- `AgentService.toLangChainMessages`: `system` and `assistant` roles
are preserved; every other role becomes a `HumanMessage`. -/
def toLangChainMessages (msgs : List ChatMessage) : List LCMsg :=
  msgs.map fun m =>
    if m.role = "system" then LCMsg.system m.content
    else if m.role = "assistant" then LCMsg.ai m.content
    else LCMsg.human m.content

/-! ## Graph model and execution driver

A compiled graph is a partial map from node id to node function plus an
entry node.  A node function returns the events it emitted through
`ctx.onEvent`, and either an error (an uncaught throw inside the node) or
a pair of the `Command` target (`none` when the node returns a plain
state update, after which execution stops because no static successor
edge exists) and the post-state message list.

`runGraphGo` models the LangGraph Pregel loop with a `recursionLimit`:
each node execution consumes one step, reaching the `END` sentinel
finishes the run, and exhausting the limit before reaching `END` raises
a `GraphRecursionError` (surfaced here as `Except.error` with a modelled
message), after any events already emitted. -/

/-- The LangGraph `END` sentinel node id. -/
def endId : String := "__end__"

/-- A compiled graph: entry node id plus node functions. -/
structure CompiledGraph where
  entry : String
  fn : String → Option (List LCMsg → List AGUIEvent × Except String (Option String × List LCMsg))

/-- Modelled message of LangGraph's `GraphRecursionError`. -/
def recursionLimitErrorMsg (n : Nat) : String :=
  "Recursion limit of " ++ toString n ++ " reached without hitting a stop condition."

/-- Modelled message of LangGraph's unknown-target failure. -/
def unknownNodeMsg (id : String) : String :=
  "Graph has no node named " ++ id

/-- Modelled message of `StateGraph.compile()`'s validation failure when
no edge leaves the `START` sentinel. -/
def graphNoEntrypointMsg : String :=
  "Graph must have an entrypoint: add at least one edge from the START node to another node"

/-- Continue the loop after one node ran: propagate an uncaught node
error, stop on a plain (no-`goto`) return, or follow the `goto` target
using `next` for the remaining steps, prepending the node's events. -/
def stepResult (evs : List AGUIEvent) (r : Except String (Option String × List LCMsg))
    (next : String → List LCMsg → List AGUIEvent × Except String (List LCMsg)) :
    List AGUIEvent × Except String (List LCMsg) :=
  match r with
  | Except.error e => (evs, Except.error e)
  | Except.ok (none, msgs1) => (evs, Except.ok msgs1)
  | Except.ok (some t, msgs1) =>
    let (evs2, r2) := next t msgs1
    (evs ++ evs2, r2)

/-- The Pregel loop with fuel; `limit` is only used for the error
message. -/
def runGraphGo (g : CompiledGraph) (limit : Nat) :
    Nat → String → List LCMsg → List AGUIEvent × Except String (List LCMsg)
  | 0, node, msgs =>
    if node = endId then ([], Except.ok msgs)
    else ([], Except.error (recursionLimitErrorMsg limit))
  | fuel + 1, node, msgs =>
    if node = endId then ([], Except.ok msgs)
    else
      match g.fn node with
      | none => ([], Except.error (unknownNodeMsg node))
      | some f => stepResult (f msgs).1 (f msgs).2 (runGraphGo g limit fuel)

/-- Run a compiled graph with a recursion limit, as
`graph.streamEvents(..., { recursionLimit })` does. -/
def runGraph (g : CompiledGraph) (limit : Nat) (msgs : List LCMsg) :
    List AGUIEvent × Except String (List LCMsg) :=
  runGraphGo g limit limit g.entry msgs

/-! ## DAG engine (`DagEngine.compile` / `createNodeFn`) -/

/-- A workflow node (`WorkflowNode` of `workflow.entity.ts`).  The
type-dependent parts of `config` are flattened: `tools` and `prompt` for
agent nodes, `toolName` and `input` for tool nodes (`input` is the
already-serialized JSON string that `tool.invoke` receives). -/
structure WorkflowNode where
  id : String
  type : String
  name : String
  configTools : List String
  configPrompt : String
  configToolName : String
  configInput : String
deriving DecidableEq, Repr

/-- A workflow edge (`WorkflowEdge`): optional `condition` keyword. -/
structure WorkflowEdge where
  source : String
  target : String
  condition : Option String
deriving DecidableEq, Repr

/-- External capabilities of a DAG run (`DagExecutionContext` plus the
per-node react agent built by `createReactAgent`): the tool registry map
and, for each agent node, the result of running its react agent on the
incoming message list. -/
structure DagDeps where
  tools : List (String × (String → Except String String))
  agentRun : WorkflowNode → List LCMsg → Except String (List LCMsg)

/-- The outgoing edges of a node, in edge-list order (the `adjacency`
map of `DagEngine.compile`). -/
def outEdgesOf (edges : List WorkflowEdge) (id : String) : List WorkflowEdge :=
  edges.filter fun e => e.source == id

/-- JavaScript `a || b` on strings (empty string is falsy). -/
def jsOrS (a b : String) : String := if a = "" then b else a

/-- Whether `needle` occurs as a contiguous run inside `hay`
(JavaScript `String.prototype.includes` on the underlying characters). -/
def charsInfixOf (needle hay : List Char) : Bool :=
  List.isPrefixOf needle hay ||
    match hay with
    | [] => false
    | _ :: t => charsInfixOf needle t

/-- The character sequence of a string lowercased (ASCII-level model of
JavaScript `toLowerCase`). -/
def lowerChars (s : String) : List Char := s.data.map Char.toLower

/-- Whether an edge's `condition` keyword case-insensitively
substring-matches the latest message content
(`e.condition && lastContent.toLowerCase().includes(e.condition.toLowerCase())`). -/
def conditionMatches (lastContent : String) (e : WorkflowEdge) : Bool :=
  match e.condition with
  | some c => c != "" && charsInfixOf (lowerChars c) (lowerChars lastContent)
  | none => false

/-- The target selected by a condition node:
`matched?.target || outEdges[0]?.target || END`. -/
def conditionTarget (outEdges : List WorkflowEdge) (lastContent : String) : String :=
  let matched := outEdges.find? (conditionMatches lastContent)
  jsOrS (match matched with | some e => e.target | none => "")
    (jsOrS (match outEdges.head? with | some e => e.target | none => "") endId)

/-- The error-tagged message appended when a node's invocation throws. -/
def nodeErrorMessage (nodeName msg : String) : LCMsg :=
  LCMsg.human ("[Error in " ++ nodeName ++ "]: " ++ msg)

/-- The single-outgoing-edge transition after a non-condition node runs:
`Command({goto: targetNode?.type === 'end' ? END : targetId, ...})` when
exactly one edge leaves the node, otherwise a plain state return. -/
def dagGoto (node : WorkflowNode) (edges : List WorkflowEdge)
    (allNodes : List WorkflowNode) : Option String :=
  let outEdges := outEdgesOf edges node.id
  if outEdges.length = 1 then
    match outEdges.head? with
    | some e =>
      if (allNodes.find? fun n => n.id == e.target).map (fun n => n.type) = some "end" then
        some endId
      else some e.target
    | none => none
  else none

/-- `DagEngine.createNodeFn`: the function registered for one workflow
node.  Agent and tool invocations are caught (`try/catch` around the
node body), so the returned function is total; a condition node routes
and returns early without touching the message list. -/
def dagNodeFn (node : WorkflowNode) (deps : DagDeps) (edges : List WorkflowEdge)
    (allNodes : List WorkflowNode) (state : List LCMsg) :
    List AGUIEvent × (Option String × List LCMsg) :=
  if node.type = "condition" then
    let outEdges := outEdgesOf edges node.id
    let lastContent := (state.getLast?.map LCMsg.content).getD ""
    ([AGUIEvent.stepStarted node.name, AGUIEvent.stepFinished node.name],
      (some (conditionTarget outEdges lastContent), state))
  else
    let result : Option (List LCMsg) :=
      if node.type = "agent" then
        match deps.agentRun node state with
        | Except.ok msgs => some msgs
        | Except.error e => some (state ++ [nodeErrorMessage node.name e])
      else if node.type = "tool" then
        match deps.tools.lookup node.configToolName with
        | none => none
        | some toolFn =>
          match toolFn node.configInput with
          | Except.ok output =>
            some (state ++ [LCMsg.human ("[Tool " ++ node.name ++ "]: " ++ output)])
          | Except.error e => some (state ++ [nodeErrorMessage node.name e])
      else none
    ([AGUIEvent.stepStarted node.name, AGUIEvent.stepFinished node.name],
      (dagGoto node edges allNodes, result.getD state))

/-- `DagEngine.compile`: nodes of type `start`/`end` are skipped, every
other node is registered under its id, and the single edge whose source
is a `start` node becomes the entry edge.  When no such edge exists no
entrypoint is added and `StateGraph.compile()` fails its validation,
modelled as `Except.error`; no event is emitted by compilation. -/
def compileDag (nodes : List WorkflowNode) (edges : List WorkflowEdge) (deps : DagDeps) :
    Except String CompiledGraph :=
  match edges.find? (fun e =>
      (nodes.find? fun n => n.id == e.source).map (fun n => n.type) == some "start") with
  | none => Except.error graphNoEntrypointMsg
  | some startEdge =>
    Except.ok
      { entry := startEdge.target,
        fn := fun id =>
          (nodes.find? fun n => n.id == id && n.type != "start" && n.type != "end").map
            fun n state => ((dagNodeFn n deps edges nodes state).1,
              Except.ok (dagNodeFn n deps edges nodes state).2) }

/-! ## Supervisor graph (`SupervisorFactory.createSupervisorGraph`)

The language-model capabilities consumed by the supervisor graph are
inputs of the model: `route` is `llm.withStructuredOutput(routeSchema).invoke`,
`respond` is the responder's `llm.invoke`, and `agentRun name` is the
react agent built for the agent of that name. -/

/-- The structured routing output (`routeSchema`): `next` is one of the
agent names, `RESPOND`, or `__end__`. -/
structure RouteResponse where
  next : String
  reason : String
deriving DecidableEq, Repr

/-- An agent roster entry (`AgentDefinition`, tools abstracted into the
agent-run capability). -/
structure AgentDefinition where
  name : String
  prompt : String
deriving DecidableEq, Repr

/-- External capabilities of a supervisor run. -/
structure SupervisorDeps where
  route : List LCMsg → Except String RouteResponse
  respond : List LCMsg → Except String LCMsg
  agentRun : String → List LCMsg → Except String (List LCMsg)

/-- The supervisor's system prompt (transcribed from
`supervisor.factory.ts`). -/
def supervisorSystemPrompt (agents : List AgentDefinition) : String :=
  "You are a team supervisor managing agents: " ++
    String.intercalate ", " (agents.map fun a => a.name) ++ ".\n\n" ++
  "Rules:\n" ++
  "- Route to the appropriate agent for specialized tasks.\n" ++
  "- If the user mentions \"知识库\" (knowledge base), internal documents, or asks to search/retrieve information, ALWAYS route to the researcher agent.\n" ++
  "- Choose RESPOND only for general greetings or simple conversations that don\x27t need any tools.\n" ++
  "- Choose __end__ when a sub-agent has already provided a complete answer.\n\n" ++
  "Agents:\n" ++
  String.intercalate "\n" (agents.map fun a => "- " ++ a.name ++ ": " ++ a.prompt)

/-- The responder's system prompt. -/
def responderSystemPrompt : String :=
  "You are a helpful AI assistant. Answer naturally. Respond in the same language as the user."

/-- The supervisor routing node: invoke the structured-output routing
call on the system prompt plus the current messages; map
`RESPOND → responder` and `__end__ → END`; append the routing-rationale
message.  The call is not guarded, so a routing failure propagates. -/
def supervisorNodeFn (agents : List AgentDefinition) (route : List LCMsg → Except String RouteResponse)
    (state : List LCMsg) : List AGUIEvent × Except String (Option String × List LCMsg) :=
  ([],
    match route (LCMsg.system (supervisorSystemPrompt agents) :: state) with
    | Except.error e => Except.error e
    | Except.ok r =>
      let goto := if r.next = "RESPOND" then "responder"
        else if r.next = "__end__" then endId else r.next
      Except.ok (some goto,
        state ++ [LCMsg.ai ("[Supervisor] Routing to " ++ r.next ++ ": " ++ r.reason)]))

/-- The responder node: invoke the model once on the state with all
`[Supervisor]`-tagged messages filtered out, append the response, go to
`END`.  Unguarded, so a failure propagates. -/
def responderNodeFn (respond : List LCMsg → Except String LCMsg)
    (state : List LCMsg) : List AGUIEvent × Except String (Option String × List LCMsg) :=
  let filtered := state.filter fun m => ! m.content.startsWith "[Supervisor]"
  ([],
    match respond (LCMsg.system responderSystemPrompt :: filtered) with
    | Except.error e => Except.error e
    | Except.ok r => Except.ok (some endId, state ++ [r]))

/-- A supervisor-mode agent node: run the react agent on the current
messages and return to the supervisor.  Unguarded, so a failure in the
agent's model/tool loop propagates. -/
def supervisorAgentNodeFn (run : List LCMsg → Except String (List LCMsg))
    (state : List LCMsg) : List AGUIEvent × Except String (Option String × List LCMsg) :=
  ([],
    match run state with
    | Except.error e => Except.error e
    | Except.ok result => Except.ok (some "supervisor", result))

/-- `SupervisorFactory.createSupervisorGraph`: the star topology with
entry `supervisor`, a `responder` node and one node per agent. -/
def createSupervisorGraph (agents : List AgentDefinition) (deps : SupervisorDeps) :
    CompiledGraph :=
  { entry := "supervisor",
    fn := fun id =>
      if id = "supervisor" then some (supervisorNodeFn agents deps.route)
      else if id = "responder" then some (responderNodeFn deps.respond)
      else if agents.any (fun a => a.name == id) then
        some (supervisorAgentNodeFn (deps.agentRun id))
      else none }

/-! ## Run wrapper (`AgentService.execute`) and SSE framing -/

/-- The recursion limit passed for supervisor mode
(`processStreamEvents(graph, ..., 25)`). -/
def supervisorRecursionLimit : Nat := 25

/-- The recursion limit passed for DAG mode
(`processStreamEvents(graph, ..., 50)`). -/
def dagRecursionLimit : Nat := 50

/-- A run body: the events the mode-specific execution emitted through
`onEvent`, and the error it threw, if any. -/
abbrev RunBody := List AGUIEvent × Option String

/-- `AgentService.execute`: emit `RUN_STARTED`, run the body, then
`RUN_FINISHED` on success or `RUN_ERROR` with the thrown message. -/
def executeEvents (threadId runId : String) : RunBody → List AGUIEvent
  | (evs, none) =>
    AGUIEvent.runStarted threadId runId :: (evs ++ [AGUIEvent.runFinished threadId runId])
  | (evs, some e) =>
    AGUIEvent.runStarted threadId runId :: (evs ++ [AGUIEvent.runError e])

/-- Convert a graph-run outcome into a run body. -/
def bodyOf (p : List AGUIEvent × Except String (List LCMsg)) : RunBody :=
  (p.1, match p.2 with | Except.ok _ => none | Except.error e => some e)

/-- A supervisor-mode run (`executeSupervisor` under `execute`): build
the supervisor graph and run it with the supervisor recursion limit. -/
def executeSupervisorRun (threadId runId : String) (agents : List AgentDefinition)
    (deps : SupervisorDeps) (msgs : List LCMsg) : List AGUIEvent :=
  executeEvents threadId runId
    (bodyOf (runGraph (createSupervisorGraph agents deps) supervisorRecursionLimit msgs))

/-- A DAG-mode run (`executeDag` under `execute`): compile the workflow
and run it with the DAG recursion limit; a compile failure is thrown
before any node runs, so the body carries no events. -/
def executeDagRun (threadId runId : String) (nodes : List WorkflowNode)
    (edges : List WorkflowEdge) (deps : DagDeps) (msgs : List LCMsg) : List AGUIEvent :=
  match compileDag nodes edges deps with
  | Except.error e => executeEvents threadId runId ([], some e)
  | Except.ok g => executeEvents threadId runId (bodyOf (runGraph g dagRecursionLimit msgs))

/-- One line-delimited record on the SSE wire: a serialized protocol
event, or the terminal `event: done` sentinel. -/
inductive WireRecord where
  | event (e : AGUIEvent)
  | done
deriving DecidableEq, Repr

/-- `ChatController.chatCompletions` wire output: every event emitted by
the run is written as it arrives; an error thrown after the run (e.g. by
message persistence) is written as `RUN_ERROR` by the `catch`; the
`finally` block always writes the `done` sentinel last. -/
def chatCompletionsWire (runEvents : List AGUIEvent) (persistError : Option String) :
    List WireRecord :=
  runEvents.map WireRecord.event ++
    (match persistError with
      | some e => [WireRecord.event (AGUIEvent.runError e)]
      | none => []) ++
    [WireRecord.done]

/-! ## Spec-side reference definitions and invariant helpers -/

/-- The condition-routing rule as the specification words it: the first
outgoing edge whose keyword matches, otherwise the first edge with no
keyword, otherwise any edge (the first), otherwise terminate.  Written
from the spec for comparison with `conditionTarget`. -/
def specConditionTarget (outEdges : List WorkflowEdge) (lastContent : String) : String :=
  match outEdges.find? (conditionMatches lastContent) with
  | some e => e.target
  | none =>
    match outEdges.find? (fun e => e.condition.isNone) with
    | some e => e.target
    | none =>
      match outEdges.head? with
      | some e => e.target
      | none => endId

/-- Whether an event is a terminal run-lifecycle event. -/
def isTerminalEvent : AGUIEvent → Bool
  | AGUIEvent.runFinished _ _ => true
  | AGUIEvent.runError _ => true
  | _ => false

/-- Whether an event is one of the three text-message events. -/
def isTextEvent : AGUIEvent → Bool
  | AGUIEvent.textMessageStart _ _ => true
  | AGUIEvent.textMessageContent _ _ => true
  | AGUIEvent.textMessageEnd _ => true
  | _ => false

/-- Whether an event is one of the four tool-call events. -/
def isToolEvent : AGUIEvent → Bool
  | AGUIEvent.toolCallStart _ _ _ => true
  | AGUIEvent.toolCallArgs _ _ => true
  | AGUIEvent.toolCallEnd _ => true
  | AGUIEvent.toolCallResult _ _ _ _ => true
  | _ => false

/-- An id generated strictly before counter value `n` (externally
supplied ids are unconstrained). -/
def idBelow (n : Nat) : EId → Prop
  | EId.fresh k => k < n
  | EId.ext _ => True

/-- All ids in `seen` were generated before counter value `n`. -/
def SeenOk (seen : List EId) (n : Nat) : Prop :=
  ∀ x ∈ seen, idBelow n x

/-- The open message id, when present, was generated before the current
counter value. -/
def CurOk (st : NormState) : Prop :=
  ∀ mid, st.currentMessageId = some mid → idBelow st.nextId mid

/-- DAG capabilities with an empty tool registry and a failing react
agent; used for concrete runs that never reach an agent invocation. -/
def trivialDagDeps : DagDeps :=
  ⟨[], fun _ _ => Except.error "unreachable"⟩

/-- A two-node workflow whose only executable node loops on itself:
`start → A`, `A → A`, with `A` a tool node whose tool is unregistered. -/
def cyclicNodes : List WorkflowNode :=
  [⟨"s", "start", "s", [], "", "", ""⟩,
   ⟨"a", "tool", "A", [], "", "missing_tool", "\x7b\x7d"⟩]

/-- The edges of the cyclic workflow. -/
def cyclicEdges : List WorkflowEdge :=
  [⟨"s", "a", none⟩, ⟨"a", "a", none⟩]

/-- A workflow with no node of type `start`. -/
def noStartNodes : List WorkflowNode :=
  [⟨"a", "agent", "A", [], "", "", ""⟩]

/-- Supervisor capabilities in which routing always picks `researcher`
and the researcher's react agent always throws. -/
def failingAgentDeps : SupervisorDeps :=
  ⟨fun _ => Except.ok ⟨"researcher", "needs research"⟩,
   fun _ => Except.ok (LCMsg.ai "hi"),
   fun _ _ => Except.error "model failure"⟩

/-- The one-agent roster used in concrete supervisor runs. -/
def researcherRoster : List AgentDefinition :=
  [⟨"researcher", "You are a research agent."⟩]

/-- A raw stream in which the model-end completion signal for tool call
`t1` arrives twice. -/
def dupEndRawEvents : List RawEvent :=
  [RawEvent.chatModelStream "a" ⟨[⟨"t1", "f", "x"⟩], none⟩,
   RawEvent.chatModelEnd "a" ["t1"],
   RawEvent.chatModelEnd "a" ["t1"]]

/-- Supervisor capabilities in which the routing call itself throws. -/
def failingRouteDeps : SupervisorDeps :=
  ⟨fun _ => Except.error "routing failure",
   fun _ => Except.ok (LCMsg.ai "hi"),
   fun _ _ => Except.ok []⟩

/-! ## Helper lemmas -/

theorem textScan_append (s : TextScanState) (xs ys : List AGUIEvent) :
    textScan s (xs ++ ys) =
      match textScan s xs with
      | some s1 => textScan s1 ys
      | none => none := by
  induction xs generalizing s with
  | nil => simp [textScan]
  | cons e rest ih =>
    simp only [List.cons_append, textScan]
    cases textStep s e with
    | none => rfl
    | some s1 => exact ih s1

theorem toolScan_append (s : ToolScanState) (xs ys : List AGUIEvent) :
    toolScan s (xs ++ ys) =
      match toolScan s xs with
      | some s1 => toolScan s1 ys
      | none => none := by
  induction xs generalizing s with
  | nil => simp [toolScan]
  | cons e rest ih =>
    simp only [List.cons_append, toolScan]
    cases toolStep s e with
    | none => rfl
    | some s1 => exact ih s1

theorem textStep_neutral (s : TextScanState) (e : AGUIEvent)
    (h : isTextEvent e = false) : textStep s e = some s := by
  cases e <;> simp_all [isTextEvent, textStep]

theorem textScan_neutral (s : TextScanState) (l : List AGUIEvent)
    (h : ∀ e ∈ l, isTextEvent e = false) : textScan s l = some s := by
  induction l with
  | nil => rfl
  | cons e rest ih =>
    have he : isTextEvent e = false := h e (List.mem_cons_self e rest)
    simp only [textScan, textStep_neutral s e he]
    exact ih (fun x hx => h x (List.mem_cons_of_mem e hx))

theorem toolStep_neutral (s : ToolScanState) (e : AGUIEvent)
    (h : isToolEvent e = false) : toolStep s e = some s := by
  cases e <;> simp_all [isToolEvent, toolStep]

theorem toolScan_neutral (s : ToolScanState) (l : List AGUIEvent)
    (h : ∀ e ∈ l, isToolEvent e = false) : toolScan s l = some s := by
  induction l with
  | nil => rfl
  | cons e rest ih =>
    have he : isToolEvent e = false := h e (List.mem_cons_self e rest)
    simp only [toolScan, toolStep_neutral s e he]
    exact ih (fun x hx => h x (List.mem_cons_of_mem e hx))

theorem idBelow_mono {n m : Nat} (h : n ≤ m) : ∀ x, idBelow n x → idBelow m x := by
  intro x hx
  cases x with
  | ext s => trivial
  | fresh k => exact Nat.lt_of_lt_of_le hx h

theorem idBelow_ne_fresh {n : Nat} {x : EId} (h : idBelow n x) : x ≠ EId.fresh n := by
  cases x with
  | ext s => simp
  | fresh k => simpa using Nat.ne_of_lt h

/-! ## C10 — message-role conversion -/

/-- C10: `toLangChainMessages` preserves `system` and `assistant` roles
and converts every other role — `tool`, `user`, or anything
unrecognized — to a Human message. -/
theorem toLangChain_role_conversion (msgs : List ChatMessage) (i : Nat)
    (m : ChatMessage) (h : msgs[i]? = some m) :
    (m.role ≠ "system" → m.role ≠ "assistant" →
        (toLangChainMessages msgs)[i]? = some (LCMsg.human m.content)) ∧
      (m.role = "system" → (toLangChainMessages msgs)[i]? = some (LCMsg.system m.content)) ∧
      (m.role = "assistant" → (toLangChainMessages msgs)[i]? = some (LCMsg.ai m.content)) := by
  have hmap : (toLangChainMessages msgs)[i]? =
      some (if m.role = "system" then LCMsg.system m.content
        else if m.role = "assistant" then LCMsg.ai m.content
        else LCMsg.human m.content) := by
    simp [toLangChainMessages, List.getElem?_map, h]
  refine ⟨?_, ?_, ?_⟩
  · intro h1 h2
    rw [hmap, if_neg h1, if_neg h2]
  · intro h1
    rw [hmap, if_pos h1]
  · intro h1
    have h2 : ¬ m.role = "system" := by rw [h1]; decide
    rw [hmap, if_neg h2, if_pos h1]

/-- Witness for C10: a `tool`-role message becomes a Human message. -/
theorem toLangChain_role_conversion_witness :
    (toLangChainMessages [⟨"tool", "result text"⟩])[0]? = some (LCMsg.human "result text") :=
  (toLangChain_role_conversion [⟨"tool", "result text"⟩] 0 ⟨"tool", "result text"⟩ rfl).1
    (by decide) (by decide)

/-! ## C9 — terminal sentinel on the wire -/

theorem count_done_map_event (evs : List AGUIEvent) :
    (evs.map WireRecord.event).count WireRecord.done = 0 := by
  rw [List.count_eq_zero]
  intro h
  obtain ⟨e, _, he⟩ := List.mem_map.mp h
  cases he

theorem executeEvents_terminal (threadId runId : String) (body : RunBody) :
    ∃ pre e, executeEvents threadId runId body = pre ++ [e] ∧ isTerminalEvent e = true := by
  obtain ⟨evs, err⟩ := body
  cases err with
  | none =>
    refine ⟨AGUIEvent.runStarted threadId runId :: evs,
      AGUIEvent.runFinished threadId runId, ?_, rfl⟩
    simp [executeEvents]
  | some e =>
    refine ⟨AGUIEvent.runStarted threadId runId :: evs, AGUIEvent.runError e, ?_, rfl⟩
    simp [executeEvents]

/-- C9: whatever the run body did (success, step-limit stop, or error)
and whether or not post-run persistence failed, the wire stream contains
exactly one `done` sentinel, it is the very last record, and the record
before it is a terminal lifecycle event (`RUN_FINISHED` or
`RUN_ERROR`). -/
theorem chat_stream_ends_with_done (threadId runId : String) (body : RunBody)
    (persistError : Option String) :
    (chatCompletionsWire (executeEvents threadId runId body) persistError).count
        WireRecord.done = 1 ∧
      (chatCompletionsWire (executeEvents threadId runId body) persistError).getLast? =
        some WireRecord.done ∧
      ∃ e, (chatCompletionsWire (executeEvents threadId runId body)
            persistError).dropLast.getLast? = some (WireRecord.event e) ∧
        isTerminalEvent e = true := by
  obtain ⟨pre, e, hsplit, hterm⟩ := executeEvents_terminal threadId runId body
  cases persistError with
  | none =>
    rw [chatCompletionsWire]
    refine ⟨?_, ?_, ?_⟩
    · simp [count_done_map_event, List.count_append, List.count_cons]
    · rw [List.append_assoc]
      simp [List.getLast?_concat]
    · refine ⟨e, ?_, hterm⟩
      rw [show (executeEvents threadId runId body).map WireRecord.event ++ [] ++
            [WireRecord.done] =
          ((executeEvents threadId runId body).map WireRecord.event) ++
            [WireRecord.done] by simp]
      rw [List.dropLast_concat, hsplit, List.map_append]
      simp [List.getLast?_concat]
  | some p =>
    rw [chatCompletionsWire]
    refine ⟨?_, ?_, ?_⟩
    · simp [count_done_map_event, List.count_append, List.count_cons]
    · rw [List.append_assoc]
      simp [List.getLast?_concat]
    · refine ⟨AGUIEvent.runError p, ?_, rfl⟩
      rw [List.append_assoc,
        show [WireRecord.event (AGUIEvent.runError p)] ++ [WireRecord.done] =
          [WireRecord.event (AGUIEvent.runError p), WireRecord.done] by rfl,
        show (executeEvents threadId runId body).map WireRecord.event ++
            [WireRecord.event (AGUIEvent.runError p), WireRecord.done] =
          ((executeEvents threadId runId body).map WireRecord.event ++
            [WireRecord.event (AGUIEvent.runError p)]) ++ [WireRecord.done] by
          simp]
      rw [List.dropLast_concat]
      simp [List.getLast?_concat]

/-! ## C8 — missing tool is a pass-through -/

/-- C8: a tool node whose configured tool name is not in the registry
emits only its step pair, does not fail, and returns exactly the
message-list state it received, following its normal transition. -/
theorem dag_missing_tool_passthrough (node : WorkflowNode) (deps : DagDeps)
    (edges : List WorkflowEdge) (allNodes : List WorkflowNode) (state : List LCMsg)
    (htype : node.type = "tool")
    (hmiss : deps.tools.lookup node.configToolName = none) :
    dagNodeFn node deps edges allNodes state =
      ([AGUIEvent.stepStarted node.name, AGUIEvent.stepFinished node.name],
        (dagGoto node edges allNodes, state)) := by
  have hcond : ¬ node.type = "condition" := by rw [htype]; decide
  have hagent : ¬ node.type = "agent" := by rw [htype]; decide
  simp [dagNodeFn, hcond, hagent, htype, hmiss]

/-- Witness for C8 at a concrete tool node with an unregistered tool. -/
theorem dag_missing_tool_passthrough_witness :
    dagNodeFn ⟨"a", "tool", "A", [], "", "missing_tool", "\x7b\x7d"⟩ trivialDagDeps
        [⟨"a", "a", none⟩] cyclicNodes [LCMsg.human "q"] =
      ([AGUIEvent.stepStarted "A", AGUIEvent.stepFinished "A"],
        (some "a", [LCMsg.human "q"])) := by
  rw [dag_missing_tool_passthrough ⟨"a", "tool", "A", [], "", "missing_tool", "\x7b\x7d"⟩
    trivialDagDeps [⟨"a", "a", none⟩] cyclicNodes [LCMsg.human "q"] rfl rfl]
  rfl

/-! ## C5 — condition-node routing -/

/-- C5 counterexample: with edges `[condition "foo" → a, no-keyword → b]`
and latest content `"bar"` (no keyword matches), the code falls back to
the *first* outgoing edge (`a`), while the claim's rule (first edge with
no keyword) selects `b`. -/
theorem conditionTarget_counterexample :
    conditionTarget [⟨"c", "a", some "foo"⟩, ⟨"c", "b", none⟩] "bar" = "a" ∧
      specConditionTarget [⟨"c", "a", some "foo"⟩, ⟨"c", "b", none⟩] "bar" = "b" ∧
      conditionTarget [⟨"c", "a", some "foo"⟩, ⟨"c", "b", none⟩] "bar" ≠
        specConditionTarget [⟨"c", "a", some "foo"⟩, ⟨"c", "b", none⟩] "bar" := by
  refine ⟨rfl, rfl, ?_⟩
  decide

/-- C5 amended: for edges whose targets are non-empty, the selected
target is the first keyword-matching edge, otherwise the first outgoing
edge (whether or not it carries a keyword), otherwise `END`; the
selection is a pure function of the latest content and the edge list. -/
theorem conditionTarget_amended (outEdges : List WorkflowEdge) (lastContent : String)
    (htargets : ∀ e ∈ outEdges, e.target ≠ "") :
    conditionTarget outEdges lastContent =
      match outEdges.find? (conditionMatches lastContent) with
      | some e => e.target
      | none =>
        match outEdges.head? with
        | some e => e.target
        | none => endId := by
  unfold conditionTarget jsOrS
  cases hf : outEdges.find? (conditionMatches lastContent) with
  | some e =>
    have he : e ∈ outEdges := List.mem_of_find?_eq_some hf
    simp [htargets e he]
  | none =>
    cases outEdges with
    | nil => simp
    | cons a t =>
      have ha : a ∈ a :: t := List.mem_cons_self a t
      simp [List.head?, htargets a ha]

/-- Witness for C5 amended at a concrete edge list. -/
theorem conditionTarget_amended_witness :
    conditionTarget [⟨"c", "a", some "foo"⟩, ⟨"c", "b", none⟩] "xxFOOzz" = "a" := by
  rw [conditionTarget_amended [⟨"c", "a", some "foo"⟩, ⟨"c", "b", none⟩] "xxFOOzz"
    (by decide)]
  rfl

/-! ## C4 — compile failure on a missing start -/

/-- C4 counterexample: on a workflow with no `start` node the run's
event stream is `RUN_STARTED` followed by the compile failure surfaced
as `RUN_ERROR` — i.e. a Protocol Event (`RUN_STARTED`) *is* emitted
before the failure, contradicting the claim's "before any Protocol
Event". -/
theorem compile_failure_after_runStarted :
    executeDagRun "t" "r" noStartNodes [⟨"a", "a", none⟩] trivialDagDeps [] =
      [AGUIEvent.runStarted "t" "r", AGUIEvent.runError graphNoEntrypointMsg] := by
  rfl

/-- C4 amended: compilation fails (with the modelled graph-validation
error) whenever the node list has no `start` node or no edge leaves a
`start` node, and the only event preceding the surfaced `RUN_ERROR` is
the initial `RUN_STARTED` — no step, text, or tool event is emitted. -/
theorem compile_fails_without_start (nodes : List WorkflowNode) (edges : List WorkflowEdge)
    (deps : DagDeps) (threadId runId : String) (msgs : List LCMsg)
    (h : (∀ n ∈ nodes, n.type ≠ "start") ∨
      (∀ e ∈ edges, ∀ n ∈ nodes, n.id = e.source → n.type ≠ "start")) :
    compileDag nodes edges deps = Except.error graphNoEntrypointMsg ∧
      executeDagRun threadId runId nodes edges deps msgs =
        [AGUIEvent.runStarted threadId runId, AGUIEvent.runError graphNoEntrypointMsg] := by
  have hnone : edges.find? (fun e =>
      (nodes.find? fun n => n.id == e.source).map (fun n => n.type) == some "start") = none := by
    rw [List.find?_eq_none]
    intro e he hpred
    have hopt : (nodes.find? fun n => n.id == e.source).map (fun n => n.type) =
        some "start" := by
      exact beq_iff_eq.mp hpred
    obtain ⟨n, hfind, htype⟩ : ∃ n, (nodes.find? fun n => n.id == e.source) = some n ∧
        n.type = "start" := by
      cases hf : nodes.find? fun n => n.id == e.source with
      | none => rw [hf] at hopt; cases hopt
      | some n =>
        rw [hf] at hopt
        exact ⟨n, rfl, Option.some_injective _ hopt⟩
    have hmem : n ∈ nodes := List.mem_of_find?_eq_some hfind
    have hid : n.id = e.source := by
      have := List.find?_some hfind
      exact beq_iff_eq.mp this
    cases h with
    | inl h1 => exact h1 n hmem htype
    | inr h2 => exact h2 e he n hmem hid htype
  have hcomp : compileDag nodes edges deps = Except.error graphNoEntrypointMsg := by
    rw [compileDag, hnone]
  refine ⟨hcomp, ?_⟩
  rw [executeDagRun, hcomp]
  rfl

/-- Witness for C4 amended: the concrete start-less workflow. -/
theorem compile_fails_without_start_witness :
    compileDag noStartNodes [⟨"a", "a", none⟩] trivialDagDeps =
        Except.error graphNoEntrypointMsg ∧
      executeDagRun "t" "r" noStartNodes [⟨"a", "a", none⟩] trivialDagDeps [] =
        [AGUIEvent.runStarted "t" "r", AGUIEvent.runError graphNoEntrypointMsg] :=
  compile_fails_without_start noStartNodes [⟨"a", "a", none⟩] trivialDagDeps "t" "r" []
    (Or.inl (by decide))

/-! ## C3 — behavior at the recursion/step limit -/

theorem dagNodeFn_events (node : WorkflowNode) (deps : DagDeps)
    (edges : List WorkflowEdge) (allNodes : List WorkflowNode) (state : List LCMsg) :
    (dagNodeFn node deps edges allNodes state).1 =
      [AGUIEvent.stepStarted node.name, AGUIEvent.stepFinished node.name] := by
  unfold dagNodeFn
  split <;> rfl

theorem compileDag_fn_shape (nodes : List WorkflowNode) (edges : List WorkflowEdge)
    (deps : DagDeps) (g : CompiledGraph) (hc : compileDag nodes edges deps = Except.ok g)
    (node : String) (f : List LCMsg → List AGUIEvent × Except String (Option String × List LCMsg))
    (hf : g.fn node = some f) (msgs : List LCMsg) :
    ∃ n, f msgs = ((dagNodeFn n deps edges nodes msgs).1,
      Except.ok (dagNodeFn n deps edges nodes msgs).2) := by
  unfold compileDag at hc
  split at hc
  · cases hc
  · cases hc
    simp only at hf
    obtain ⟨n, _, hmap⟩ := Option.map_eq_some'.mp hf
    exact ⟨n, by rw [← hmap]⟩

theorem runGraphGo_no_runFinished (g : CompiledGraph) (limit : Nat)
    (hg : ∀ node f, g.fn node = some f → ∀ msgs e, e ∈ (f msgs).1 →
      ∀ t r, e ≠ AGUIEvent.runFinished t r) :
    ∀ (fuel : Nat) (node : String) (msgs : List LCMsg) (t r : String),
      AGUIEvent.runFinished t r ∉ (runGraphGo g limit fuel node msgs).1 := by
  intro fuel
  induction fuel with
  | zero =>
    intro node msgs t r
    unfold runGraphGo
    split <;> simp
  | succ n ih =>
    intro node msgs t r
    unfold runGraphGo
    by_cases hend : node = endId
    · simp [hend]
    · rw [if_neg hend]
      cases hfn : g.fn node with
      | none => simp
      | some f =>
        show AGUIEvent.runFinished t r ∉
          (stepResult (f msgs).1 (f msgs).2 (runGraphGo g limit n)).1
        cases hf : f msgs with
        | mk evs r2 =>
          cases r2 with
          | error e =>
            intro hmem
            exact hg node f hfn msgs _ (by rw [hf]; exact hmem) t r rfl
          | ok pr =>
            obtain ⟨goto, msgs1⟩ := pr
            cases goto with
            | none =>
              intro hmem
              exact hg node f hfn msgs _ (by rw [hf]; exact hmem) t r rfl
            | some t2 =>
              show AGUIEvent.runFinished t r ∉ evs ++ (runGraphGo g limit n t2 msgs1).1
              rw [List.mem_append]
              rintro (hmem | hmem)
              · exact hg node f hfn msgs _ (by rw [hf]; exact hmem) t r rfl
              · exact ih t2 msgs1 t r hmem

theorem supervisorGraph_fn_no_events (agents : List AgentDefinition)
    (deps : SupervisorDeps) (node : String)
    (f : List LCMsg → List AGUIEvent × Except String (Option String × List LCMsg))
    (hf : (createSupervisorGraph agents deps).fn node = some f) (msgs : List LCMsg) :
    (f msgs).1 = [] := by
  unfold createSupervisorGraph at hf
  simp only at hf
  by_cases h1 : node = "supervisor"
  · rw [if_pos h1] at hf
    cases hf
    rfl
  · rw [if_neg h1] at hf
    by_cases h2 : node = "responder"
    · rw [if_pos h2] at hf
      cases hf
      rfl
    · rw [if_neg h2] at hf
      by_cases h3 : agents.any (fun a => a.name == node)
      · rw [if_pos h3] at hf
        cases hf
        rfl
      · rw [if_neg h3] at hf
        cases hf

theorem runGraphGo_events_nil (g : CompiledGraph)
    (hg : ∀ node f, g.fn node = some f → ∀ msgs, (f msgs).1 = []) (limit : Nat) :
    ∀ (fuel : Nat) (node : String) (msgs : List LCMsg),
      (runGraphGo g limit fuel node msgs).1 = [] := by
  intro fuel
  induction fuel with
  | zero =>
    intro node msgs
    unfold runGraphGo
    split <;> rfl
  | succ n ih =>
    intro node msgs
    unfold runGraphGo
    by_cases hend : node = endId
    · simp [hend]
    · rw [if_neg hend]
      cases hfn : g.fn node with
      | none => rfl
      | some f =>
        show (stepResult (f msgs).1 (f msgs).2 (runGraphGo g limit n)).1 = []
        cases hf : f msgs with
        | mk evs r2 =>
          have hevs : evs = [] := by
            have := hg node f hfn msgs
            rw [hf] at this
            exact this
          cases r2 with
          | error e => exact hevs
          | ok pr =>
            obtain ⟨goto, msgs1⟩ := pr
            cases goto with
            | none => exact hevs
            | some t2 =>
              show evs ++ (runGraphGo g limit n t2 msgs1).1 = []
              rw [hevs, ih t2 msgs1]
              rfl

/-- C3 counterexample: the concrete cyclic workflow `start → A`,
`A → A` exhausts the DAG step limit (50), and the run ends with
`RUN_ERROR` carrying the recursion-limit message — not with
`RUN_FINISHED` as the claim states. -/
theorem step_limit_counterexample :
    (executeDagRun "t" "r" cyclicNodes cyclicEdges trivialDagDeps []).getLast? =
        some (AGUIEvent.runError (recursionLimitErrorMsg 50)) ∧
      AGUIEvent.runFinished "t" "r" ∉
        executeDagRun "t" "r" cyclicNodes cyclicEdges trivialDagDeps [] := by
  constructor
  · rfl
  · decide

/-- C3 amended: the limits are 25 (supervisor) and 50 (DAG, looser);
when the graph loop exhausts the limit before reaching `END`, the
underlying runtime raises a recursion-limit error which the run-level
handler surfaces as `RUN_ERROR` after the partial output: the stream
ends with `RUN_ERROR`, and `RUN_FINISHED` is never emitted. -/
theorem step_limit_exceeded_runError (threadId runId : String) :
    supervisorRecursionLimit = 25 ∧ dagRecursionLimit = 50 ∧
      (∀ nodes edges deps msgs,
        (∃ g, compileDag nodes edges deps = Except.ok g ∧
          (runGraph g dagRecursionLimit msgs).2 =
            Except.error (recursionLimitErrorMsg dagRecursionLimit)) →
        (∃ evs, executeDagRun threadId runId nodes edges deps msgs =
            AGUIEvent.runStarted threadId runId ::
              (evs ++ [AGUIEvent.runError (recursionLimitErrorMsg dagRecursionLimit)])) ∧
          ∀ t r, AGUIEvent.runFinished t r ∉
            executeDagRun threadId runId nodes edges deps msgs) ∧
      (∀ agents deps msgs,
        (runGraph (createSupervisorGraph agents deps) supervisorRecursionLimit msgs).2 =
          Except.error (recursionLimitErrorMsg supervisorRecursionLimit) →
        executeSupervisorRun threadId runId agents deps msgs =
          [AGUIEvent.runStarted threadId runId,
            AGUIEvent.runError (recursionLimitErrorMsg supervisorRecursionLimit)]) := by
  refine ⟨rfl, rfl, ?_, ?_⟩
  · rintro nodes edges deps msgs ⟨g, hc, hrun⟩
    have h1 : executeDagRun threadId runId nodes edges deps msgs =
        executeEvents threadId runId (bodyOf (runGraph g dagRecursionLimit msgs)) := by
      unfold executeDagRun
      rw [hc]
    have hbody : bodyOf (runGraph g dagRecursionLimit msgs) =
        ((runGraph g dagRecursionLimit msgs).1,
          some (recursionLimitErrorMsg dagRecursionLimit)) := by
      unfold bodyOf
      rw [hrun]
    have hout : executeDagRun threadId runId nodes edges deps msgs =
        AGUIEvent.runStarted threadId runId ::
          ((runGraph g dagRecursionLimit msgs).1 ++
            [AGUIEvent.runError (recursionLimitErrorMsg dagRecursionLimit)]) := by
      rw [h1, hbody]
      rfl
    refine ⟨⟨(runGraph g dagRecursionLimit msgs).1, hout⟩, ?_⟩
    intro t r
    rw [hout]
    intro hmem
    rcases List.mem_cons.mp hmem with h | h
    · cases h
    rcases List.mem_append.mp h with h2 | h2
    · have hnof : AGUIEvent.runFinished t r ∉ (runGraph g dagRecursionLimit msgs).1 := by
        apply runGraphGo_no_runFinished g dagRecursionLimit
        intro node f hf msgs1 e hmem1 t1 r1 heq
        obtain ⟨n, hshape⟩ := compileDag_fn_shape nodes edges deps g hc node f hf msgs1
        rw [hshape] at hmem1
        rw [dagNodeFn_events] at hmem1
        subst heq
        rcases List.mem_cons.mp hmem1 with h3 | h3
        · cases h3
        rcases List.mem_cons.mp h3 with h4 | h4
        · cases h4
        · cases h4
      exact hnof h2
    · cases List.mem_singleton.mp h2
  · intro agents deps msgs hrun
    have hnil : (runGraph (createSupervisorGraph agents deps)
        supervisorRecursionLimit msgs).1 = [] := by
      apply runGraphGo_events_nil
      intro node f hf msgs1
      exact supervisorGraph_fn_no_events agents deps node f hf msgs1
    have hbody : bodyOf (runGraph (createSupervisorGraph agents deps)
          supervisorRecursionLimit msgs) =
        ([], some (recursionLimitErrorMsg supervisorRecursionLimit)) := by
      unfold bodyOf
      rw [hrun, hnil]
    show executeEvents threadId runId (bodyOf (runGraph (createSupervisorGraph agents deps)
      supervisorRecursionLimit msgs)) = _
    rw [hbody]
    rfl

/-- Witness for C3 amended at the concrete cyclic workflow. -/
theorem step_limit_exceeded_runError_witness :
    (∃ evs, executeDagRun "t" "r" cyclicNodes cyclicEdges trivialDagDeps [] =
        AGUIEvent.runStarted "t" "r" ::
          (evs ++ [AGUIEvent.runError (recursionLimitErrorMsg dagRecursionLimit)])) ∧
      ∀ t r, AGUIEvent.runFinished t r ∉
        executeDagRun "t" "r" cyclicNodes cyclicEdges trivialDagDeps [] :=
  (step_limit_exceeded_runError "t" "r").2.2.1 cyclicNodes cyclicEdges trivialDagDeps []
    ⟨_, rfl, rfl⟩

/-! ## C7 — error recovery per node -/

theorem runGraphGo_succ_some (g : CompiledGraph) (limit fuel : Nat) (node : String)
    (f : List LCMsg → List AGUIEvent × Except String (Option String × List LCMsg))
    (hend : ¬ node = endId) (hfn : g.fn node = some f) (msgs : List LCMsg) :
    runGraphGo g limit (fuel + 1) node msgs =
      stepResult (f msgs).1 (f msgs).2 (runGraphGo g limit fuel) := by
  unfold runGraphGo
  rw [if_neg hend, hfn]

/-- C7 counterexample: in supervisor mode, an error raised by a
non-routing node (the `researcher` agent node) aborts the whole run with
`RUN_ERROR` and appends no error-tagged message — contradicting the
claim that only the routing node's errors abort the run. -/
theorem supervisor_agent_error_aborts_run :
    executeSupervisorRun "t" "r" researcherRoster failingAgentDeps [LCMsg.human "q"] =
      [AGUIEvent.runStarted "t" "r", AGUIEvent.runError "model failure"] := by
  rfl

/-- C7 amended: DAG-mode nodes recover locally from a failing
model/tool invocation — an `[Error in <node>]`-tagged message is
appended and the node's normal transition is taken — while in
supervisor mode an error in *any* node (the routing node, the
responder, or an agent node) propagates and aborts the run; a routing
failure on the first step surfaces as `RUN_ERROR` right after
`RUN_STARTED`. -/
theorem node_error_recovery (threadId runId : String) :
    (∀ (node : WorkflowNode) (deps : DagDeps) (edges : List WorkflowEdge)
        (allNodes : List WorkflowNode) (state : List LCMsg) (e : String),
      node.type = "agent" → deps.agentRun node state = Except.error e →
      dagNodeFn node deps edges allNodes state =
        ([AGUIEvent.stepStarted node.name, AGUIEvent.stepFinished node.name],
          (dagGoto node edges allNodes, state ++ [nodeErrorMessage node.name e]))) ∧
      (∀ (node : WorkflowNode) (deps : DagDeps) (edges : List WorkflowEdge)
          (allNodes : List WorkflowNode) (state : List LCMsg) (e : String)
          (toolFn : String → Except String String),
        node.type = "tool" → deps.tools.lookup node.configToolName = some toolFn →
        toolFn node.configInput = Except.error e →
        dagNodeFn node deps edges allNodes state =
          ([AGUIEvent.stepStarted node.name, AGUIEvent.stepFinished node.name],
            (dagGoto node edges allNodes, state ++ [nodeErrorMessage node.name e]))) ∧
      (∀ (agents : List AgentDefinition) (route : List LCMsg → Except String RouteResponse)
          (state : List LCMsg) (e : String),
        route (LCMsg.system (supervisorSystemPrompt agents) :: state) = Except.error e →
        supervisorNodeFn agents route state = ([], Except.error e)) ∧
      (∀ (run : List LCMsg → Except String (List LCMsg)) (state : List LCMsg) (e : String),
        run state = Except.error e →
        supervisorAgentNodeFn run state = ([], Except.error e)) ∧
      (∀ (respond : List LCMsg → Except String LCMsg) (state : List LCMsg) (e : String),
        respond (LCMsg.system responderSystemPrompt ::
            state.filter fun m => ! m.content.startsWith "[Supervisor]") = Except.error e →
        responderNodeFn respond state = ([], Except.error e)) ∧
      (∀ (agents : List AgentDefinition) (deps : SupervisorDeps) (msgs : List LCMsg)
          (e : String),
        deps.route (LCMsg.system (supervisorSystemPrompt agents) :: msgs) = Except.error e →
        executeSupervisorRun threadId runId agents deps msgs =
          [AGUIEvent.runStarted threadId runId, AGUIEvent.runError e]) := by
  refine ⟨?_, ?_, ?_, ?_, ?_, ?_⟩
  · intro node deps edges allNodes state e htype herr
    have hcond : ¬ node.type = "condition" := by rw [htype]; decide
    simp [dagNodeFn, hcond, htype, herr]
  · intro node deps edges allNodes state e toolFn htype hlook herr
    have hcond : ¬ node.type = "condition" := by rw [htype]; decide
    have hagent : ¬ node.type = "agent" := by rw [htype]; decide
    simp [dagNodeFn, hcond, hagent, htype, hlook, herr]
  · intro agents route state e herr
    unfold supervisorNodeFn
    rw [herr]
  · intro run state e herr
    unfold supervisorAgentNodeFn
    rw [herr]
  · intro respond state e herr
    simp only [responderNodeFn]
    rw [herr]
  · intro agents deps msgs e herr
    have hnode : supervisorNodeFn agents deps.route msgs = ([], Except.error e) := by
      unfold supervisorNodeFn
      rw [herr]
    have hrun : runGraph (createSupervisorGraph agents deps) supervisorRecursionLimit msgs =
        ([], Except.error e) := by
      show runGraphGo (createSupervisorGraph agents deps) supervisorRecursionLimit
        (24 + 1) "supervisor" msgs = ([], Except.error e)
      rw [runGraphGo_succ_some (createSupervisorGraph agents deps) supervisorRecursionLimit
        24 "supervisor" (supervisorNodeFn agents deps.route) (by decide) rfl msgs]
      rw [hnode]
      rfl
    unfold executeSupervisorRun
    rw [hrun]
    rfl

/-- Witness for C7 amended: a run whose routing call fails surfaces the
error as `RUN_ERROR`. -/
theorem node_error_recovery_witness :
    executeSupervisorRun "t" "r" researcherRoster failingRouteDeps [LCMsg.human "q"] =
      [AGUIEvent.runStarted "t" "r", AGUIEvent.runError "routing failure"] :=
  (node_error_recovery "t" "r").2.2.2.2.2 researcherRoster failingRouteDeps
    [LCMsg.human "q"] "routing failure" rfl

/-! ## C6 — supervisor routing suppression -/

theorem processToolChunkOne_events_tool (st : NormState) (tc : ToolCallChunk) :
    ∀ e ∈ (processToolChunkOne st tc).2, isToolEvent e = true := by
  unfold processToolChunkOne
  by_cases h1 : tc.id ≠ "" ∧ tc.id ∉ st.emittedToolCalls
  · rw [if_pos h1]
    by_cases h2 : tc.id ≠ "" ∧ tc.args ≠ ""
    · rw [if_pos h2]
      intro e he
      rcases List.mem_cons.mp he with heq | he2
      · subst heq; rfl
      · have heq := List.mem_singleton.mp he2
        subst heq; rfl
    · rw [if_neg h2]
      intro e he
      have heq := List.mem_singleton.mp he
      subst heq; rfl
  · rw [if_neg h1]
    by_cases h2 : tc.id ≠ "" ∧ tc.args ≠ ""
    · rw [if_pos h2]
      intro e he
      have heq := List.mem_singleton.mp he
      subst heq; rfl
    · rw [if_neg h2]
      intro e he
      cases he

theorem processToolChunks_events_tool (tcs : List ToolCallChunk) :
    ∀ st, ∀ e ∈ (processToolChunks st tcs).2, isToolEvent e = true := by
  induction tcs with
  | nil => intro st e he; cases he
  | cons tc rest ih =>
    intro st e he
    show isToolEvent e = true
    have he2 : e ∈ (processToolChunkOne st tc).2 ++
        (processToolChunks (processToolChunkOne st tc).1 rest).2 := he
    rcases List.mem_append.mp he2 with h | h
    · exact processToolChunkOne_events_tool st tc e h
    · exact ih (processToolChunkOne st tc).1 e h

theorem processTextToken_content (st : NormState) (t : String) (mid : EId) (d : String)
    (hmem : AGUIEvent.textMessageContent mid d ∈ (processTextToken st t).2) :
    d = t := by
  unfold processTextToken at hmem
  by_cases ht : t = ""
  · rw [if_neg (not_not_intro ht)] at hmem
    cases hmem
  · rw [if_pos ht] at hmem
    cases hcur : st.currentMessageId with
    | some mid2 =>
      rw [hcur] at hmem
      have hmem2 : AGUIEvent.textMessageContent mid d ∈
          [AGUIEvent.textMessageContent mid2 t] := hmem
      have heq := List.mem_singleton.mp hmem2
      cases heq
      rfl
    | none =>
      rw [hcur] at hmem
      have hmem2 : AGUIEvent.textMessageContent mid d ∈
          [AGUIEvent.textMessageStart (EId.fresh st.nextId) "assistant",
           AGUIEvent.textMessageContent (EId.fresh st.nextId) t] := hmem
      rcases List.mem_cons.mp hmem2 with h | h
      · cases h
      · have heq := List.mem_singleton.mp h
        cases heq
        rfl

theorem processChunkBody_content_source (st : NormState) (chunk : StreamChunk)
    (mid : EId) (d : String)
    (hmem : AGUIEvent.textMessageContent mid d ∈ (processChunkBody st chunk).2) :
    chunk.content = some d := by
  unfold processChunkBody at hmem
  by_cases htc : chunk.toolCallChunks ≠ []
  · rw [if_pos htc] at hmem
    have := processToolChunks_events_tool chunk.toolCallChunks st _ hmem
    simp [isToolEvent] at this
  · rw [if_neg htc] at hmem
    cases hc : chunk.content with
    | none =>
      rw [hc] at hmem
      cases hmem
    | some t =>
      rw [hc] at hmem
      have hmem2 : AGUIEvent.textMessageContent mid d ∈ (processTextToken st t).2 := hmem
      have hd := processTextToken_content st t mid d hmem2
      subst hd
      rfl

theorem processChunk_content_source (st : NormState) (node : String) (chunk : StreamChunk)
    (mid : EId) (d : String)
    (hmem : AGUIEvent.textMessageContent mid d ∈ (processChunk st node chunk).2) :
    ¬ node = "supervisor" ∧ chunk.content = some d := by
  unfold processChunk at hmem
  by_cases hsup : node = "supervisor"
  · rw [if_pos hsup] at hmem
    cases hmem
  · rw [if_neg hsup] at hmem
    refine ⟨hsup, ?_⟩
    by_cases hC : node ≠ "" ∧ node ∉ st.activeSteps
    · rw [if_pos hC] at hmem
      have hmem2 : AGUIEvent.textMessageContent mid d ∈
          AGUIEvent.stepStarted node ::
            (processChunkBody { st with activeSteps := node :: st.activeSteps } chunk).2 :=
        hmem
      rcases List.mem_cons.mp hmem2 with h | h
      · cases h
      · exact processChunkBody_content_source _ chunk mid d h
    · rw [if_neg hC] at hmem
      exact processChunkBody_content_source st chunk mid d hmem

theorem processModelEnd_no_content (st : NormState) (node : String) (ids : List String)
    (mid : EId) (d : String) :
    AGUIEvent.textMessageContent mid d ∉ (processModelEnd st node ids).2 := by
  unfold processModelEnd
  by_cases hsup : node = "supervisor"
  · rw [if_pos hsup]
    intro hmem
    cases hmem
  · rw [if_neg hsup]
    cases hcur : st.currentMessageId with
    | some m =>
      intro hmem
      rcases List.mem_append.mp hmem with h | h
      · obtain ⟨id, _, heq⟩ := List.mem_map.mp h
        cases heq
      · have heq := List.mem_singleton.mp h
        cases heq
    | none =>
      intro hmem
      obtain ⟨id, _, heq⟩ := List.mem_map.mp hmem
      cases heq

theorem processToolEnd_events_tool (st : NormState) (metaId : Option String)
    (output : String) :
    ∀ e ∈ (processToolEnd st metaId output).2, isToolEvent e = true := by
  unfold processToolEnd
  by_cases hm : (toolEndId st metaId).1 ∈ (toolEndId st metaId).2.emittedToolResults
  · rw [if_pos hm]
    intro e he
    cases he
  · rw [if_neg hm]
    intro e he
    have heq := List.mem_singleton.mp he
    subst heq
    rfl

theorem processChainEnd_no_content (st : NormState) (node : String) (top : Bool)
    (mid : EId) (d : String) :
    AGUIEvent.textMessageContent mid d ∉ (processChainEnd st node top).2 := by
  unfold processChainEnd
  by_cases hC : node ≠ "" ∧ node ∈ st.activeSteps ∧ top = true
  · rw [if_pos hC]
    cases hcur : st.currentMessageId with
    | some m =>
      intro hmem
      rcases List.mem_cons.mp hmem with h | h
      · cases h
      · have heq := List.mem_singleton.mp h
        cases heq
    | none =>
      intro hmem
      have heq := List.mem_singleton.mp hmem
      cases heq
  · rw [if_neg hC]
    intro hmem
    cases hmem

theorem processOne_content_source (st : NormState) (e : RawEvent) (mid : EId) (d : String)
    (hmem : AGUIEvent.textMessageContent mid d ∈ (processOne st e).2) :
    ∃ node chunk, e = RawEvent.chatModelStream node chunk ∧ ¬ node = "supervisor" ∧
      chunk.content = some d := by
  cases e with
  | chatModelStream node chunk =>
    obtain ⟨h1, h2⟩ := processChunk_content_source st node chunk mid d hmem
    exact ⟨node, chunk, rfl, h1, h2⟩
  | chatModelEnd node ids =>
    exact absurd hmem (processModelEnd_no_content st node ids mid d)
  | toolEnd metaId output =>
    exfalso
    have := processToolEnd_events_tool st metaId output _ hmem
    simp [isToolEvent] at this
  | chainEnd node top =>
    exact absurd hmem (processChainEnd_no_content st node top mid d)
  | other => cases hmem

theorem runNorm_content_source (evs : List RawEvent) :
    ∀ (st : NormState) (mid : EId) (d : String),
      AGUIEvent.textMessageContent mid d ∈ (runNorm st evs).2 →
      ∃ node chunk, RawEvent.chatModelStream node chunk ∈ evs ∧ ¬ node = "supervisor" ∧
        chunk.content = some d := by
  induction evs with
  | nil =>
    intro st mid d hmem
    cases hmem
  | cons e rest ih =>
    intro st mid d hmem
    have hmem2 : AGUIEvent.textMessageContent mid d ∈
        (processOne st e).2 ++ (runNorm (processOne st e).1 rest).2 := hmem
    rcases List.mem_append.mp hmem2 with h | h
    · obtain ⟨node, chunk, heq, hsup, hc⟩ := processOne_content_source st e mid d h
      exact ⟨node, chunk, heq ▸ List.mem_cons_self e rest, hsup, hc⟩
    · obtain ⟨node, chunk, hmem3, hsup, hc⟩ := ih (processOne st e).1 mid d h
      exact ⟨node, chunk, List.mem_cons_of_mem e hmem3, hsup, hc⟩

theorem processChunk_stepStarted (st : NormState) (node : String) (chunk : StreamChunk)
    (hsup : ¬ node = "supervisor") (hne : node ≠ "") (hnotin : node ∉ st.activeSteps) :
    ∃ rest, (processChunk st node chunk).2 = AGUIEvent.stepStarted node :: rest := by
  unfold processChunk
  rw [if_neg hsup, if_pos (And.intro hne hnotin)]
  exact ⟨(processChunkBody { st with activeSteps := node :: st.activeSteps } chunk).2, rfl⟩

/-- C6: supervisor routing-rationale text never reaches the text stream:
(1) a token chunk tagged with the `supervisor` node is dropped entirely
(no event, no state change), (2) so is the supervisor's model-end
signal, (3) every `TEXT_MESSAGE_CONTENT` delta of a run is the content
of some chunk from a *non*-supervisor node, and (4) the first chunk of
a routed-to agent node opens that agent's step: the emitted batch starts
with `STEP_STARTED` for the agent's name. -/
theorem supervisor_routing_suppressed :
    (∀ (st : NormState) (chunk : StreamChunk),
        processOne st (RawEvent.chatModelStream "supervisor" chunk) = (st, [])) ∧
      (∀ (st : NormState) (ids : List String),
        processOne st (RawEvent.chatModelEnd "supervisor" ids) = (st, [])) ∧
      (∀ (evs : List RawEvent) (mid : EId) (d : String),
        AGUIEvent.textMessageContent mid d ∈ processStream evs →
        ∃ node chunk, RawEvent.chatModelStream node chunk ∈ evs ∧
          ¬ node = "supervisor" ∧ chunk.content = some d) ∧
      (∀ (st : NormState) (node : String) (chunk : StreamChunk),
        ¬ node = "supervisor" → node ≠ "" → node ∉ st.activeSteps →
        ∃ rest, (processOne st (RawEvent.chatModelStream node chunk)).2 =
          AGUIEvent.stepStarted node :: rest) := by
  refine ⟨?_, ?_, ?_, ?_⟩
  · intro st chunk
    show processChunk st "supervisor" chunk = (st, [])
    unfold processChunk
    rw [if_pos rfl]
  · intro st ids
    show processModelEnd st "supervisor" ids = (st, [])
    unfold processModelEnd
    rw [if_pos rfl]
  · intro evs mid d hmem
    unfold processStream at hmem
    cases hcur : (runNorm initNormState evs).1.currentMessageId with
    | some m =>
      rw [hcur] at hmem
      have hmem2 : AGUIEvent.textMessageContent mid d ∈
          (runNorm initNormState evs).2 ++ [AGUIEvent.textMessageEnd m] := hmem
      rcases List.mem_append.mp hmem2 with h | h
      · exact runNorm_content_source evs initNormState mid d h
      · have heq := List.mem_singleton.mp h
        cases heq
    | none =>
      rw [hcur] at hmem
      exact runNorm_content_source evs initNormState mid d hmem
  · intro st node chunk hsup hne hnotin
    exact processChunk_stepStarted st node chunk hsup hne hnotin

/-- Witness for C6 at concrete states: the supervisor chunk is dropped
and a routed-to agent's first chunk opens its step. -/
theorem supervisor_routing_suppressed_witness :
    processOne initNormState
        (RawEvent.chatModelStream "supervisor" ⟨[], some "[Supervisor] Routing to researcher: x"⟩) =
      (initNormState, []) ∧
      ∃ rest, (processOne initNormState
          (RawEvent.chatModelStream "researcher" ⟨[], some "hello"⟩)).2 =
        AGUIEvent.stepStarted "researcher" :: rest :=
  ⟨supervisor_routing_suppressed.1 initNormState ⟨[], some "[Supervisor] Routing to researcher: x"⟩,
   supervisor_routing_suppressed.2.2.2 initNormState "researcher" ⟨[], some "hello"⟩
     (by decide) (by decide) (by decide)⟩

/-! ## C1 — text-message pairing -/

theorem toolEvent_not_text (e : AGUIEvent) (h : isToolEvent e = true) :
    isTextEvent e = false := by
  cases e <;> simp_all [isToolEvent, isTextEvent]

theorem processToolChunkOne_state (st : NormState) (tc : ToolCallChunk) :
    (processToolChunkOne st tc).1.currentMessageId = st.currentMessageId ∧
      (processToolChunkOne st tc).1.activeSteps = st.activeSteps ∧
      (processToolChunkOne st tc).1.emittedToolResults = st.emittedToolResults ∧
      st.nextId ≤ (processToolChunkOne st tc).1.nextId := by
  unfold processToolChunkOne
  by_cases h1 : tc.id ≠ "" ∧ tc.id ∉ st.emittedToolCalls
  · rw [if_pos h1]
    by_cases h2 : tc.id ≠ "" ∧ tc.args ≠ ""
    · rw [if_pos h2]
      exact ⟨rfl, rfl, rfl, Nat.le_succ _⟩
    · rw [if_neg h2]
      exact ⟨rfl, rfl, rfl, Nat.le_succ _⟩
  · rw [if_neg h1]
    by_cases h2 : tc.id ≠ "" ∧ tc.args ≠ ""
    · rw [if_pos h2]
      exact ⟨rfl, rfl, rfl, Nat.le.refl⟩
    · rw [if_neg h2]
      exact ⟨rfl, rfl, rfl, Nat.le.refl⟩

theorem processToolChunks_state (tcs : List ToolCallChunk) :
    ∀ st : NormState,
      (processToolChunks st tcs).1.currentMessageId = st.currentMessageId ∧
        (processToolChunks st tcs).1.activeSteps = st.activeSteps ∧
        (processToolChunks st tcs).1.emittedToolResults = st.emittedToolResults ∧
        st.nextId ≤ (processToolChunks st tcs).1.nextId := by
  induction tcs with
  | nil =>
    intro st
    exact ⟨rfl, rfl, rfl, Nat.le.refl⟩
  | cons tc rest ih =>
    intro st
    obtain ⟨c1, a1, r1, n1⟩ := processToolChunkOne_state st tc
    obtain ⟨c2, a2, r2, n2⟩ := ih (processToolChunkOne st tc).1
    exact ⟨c2.trans c1, a2.trans a1, r2.trans r1, Nat.le_trans n1 n2⟩

theorem processTextToken_state (st : NormState) (t : String) :
    (processTextToken st t).1.activeSteps = st.activeSteps ∧
      (processTextToken st t).1.emittedToolCalls = st.emittedToolCalls ∧
      (processTextToken st t).1.emittedToolResults = st.emittedToolResults ∧
      st.nextId ≤ (processTextToken st t).1.nextId := by
  unfold processTextToken
  by_cases ht : t ≠ ""
  · rw [if_pos ht]
    cases hcur : st.currentMessageId with
    | some mid => exact ⟨rfl, rfl, rfl, Nat.le.refl⟩
    | none => exact ⟨rfl, rfl, rfl, Nat.le_succ _⟩
  · rw [if_neg ht]
    exact ⟨rfl, rfl, rfl, Nat.le.refl⟩

theorem toolEndId_state (st : NormState) (metaId : Option String) :
    (toolEndId st metaId).2.currentMessageId = st.currentMessageId ∧
      (toolEndId st metaId).2.activeSteps = st.activeSteps ∧
      (toolEndId st metaId).2.emittedToolCalls = st.emittedToolCalls ∧
      (toolEndId st metaId).2.emittedToolResults = st.emittedToolResults ∧
      st.nextId ≤ (toolEndId st metaId).2.nextId := by
  cases metaId with
  | none => exact ⟨rfl, rfl, rfl, rfl, Nat.le_succ _⟩
  | some s =>
    simp only [toolEndId]
    by_cases hs : s ≠ ""
    · rw [if_pos hs]
      exact ⟨rfl, rfl, rfl, rfl, Nat.le.refl⟩
    · rw [if_neg hs]
      exact ⟨rfl, rfl, rfl, rfl, Nat.le_succ _⟩

theorem SeenOk_mono {seen : List EId} {n m : Nat} (h : n ≤ m) (hs : SeenOk seen n) :
    SeenOk seen m :=
  fun x hx => idBelow_mono h x (hs x hx)

theorem processTextToken_textScan (st : NormState) (t : String) (seen : List EId)
    (hseen : SeenOk seen st.nextId) (hcur : CurOk st) :
    ∃ seen', textScan ⟨st.currentMessageId, seen⟩ (processTextToken st t).2 =
        some ⟨(processTextToken st t).1.currentMessageId, seen'⟩ ∧
      SeenOk seen' (processTextToken st t).1.nextId ∧
      CurOk (processTextToken st t).1 := by
  unfold processTextToken
  by_cases ht : t ≠ ""
  · rw [if_pos ht]
    cases hcur2 : st.currentMessageId with
    | some mid =>
      refine ⟨seen, ?_, hseen, ?_⟩
      · simp [textScan, textStep, hcur2]
      · intro m h
        have h2 : st.currentMessageId = some m := hcur2.symm ▸ h
        exact hcur m h2
    | none =>
      have hf : EId.fresh st.nextId ∉ seen := fun hx =>
        idBelow_ne_fresh (hseen _ hx) rfl
      refine ⟨EId.fresh st.nextId :: seen, ?_, ?_, ?_⟩
      · simp [textScan, textStep, hf]
      · intro x hx
        rcases List.mem_cons.mp hx with h | h
        · subst h
          exact Nat.lt_succ_self _
        · exact idBelow_mono (Nat.le_succ _) x (hseen x h)
      · intro m h
        have h2 : some (EId.fresh st.nextId) = some m := h
        cases h2
        exact Nat.lt_succ_self _
  · rw [if_neg ht]
    exact ⟨seen, by simp [textScan], hseen, hcur⟩

theorem processChunkBody_textScan (st : NormState) (chunk : StreamChunk) (seen : List EId)
    (hseen : SeenOk seen st.nextId) (hcur : CurOk st) :
    ∃ seen', textScan ⟨st.currentMessageId, seen⟩ (processChunkBody st chunk).2 =
        some ⟨(processChunkBody st chunk).1.currentMessageId, seen'⟩ ∧
      SeenOk seen' (processChunkBody st chunk).1.nextId ∧
      CurOk (processChunkBody st chunk).1 := by
  unfold processChunkBody
  by_cases htc : chunk.toolCallChunks ≠ []
  · rw [if_pos htc]
    obtain ⟨c1, _, _, n1⟩ := processToolChunks_state chunk.toolCallChunks st
    refine ⟨seen, ?_, SeenOk_mono n1 hseen, ?_⟩
    · rw [textScan_neutral _ _ (fun e he =>
        toolEvent_not_text e (processToolChunks_events_tool chunk.toolCallChunks st e he))]
      rw [c1]
    · intro m h
      exact idBelow_mono n1 m (hcur m (c1 ▸ h))
  · rw [if_neg htc]
    cases hc : chunk.content with
    | some t => exact processTextToken_textScan st t seen hseen hcur
    | none => exact ⟨seen, by simp [textScan], hseen, hcur⟩

theorem processChunk_textScan (st : NormState) (node : String) (chunk : StreamChunk)
    (seen : List EId) (hseen : SeenOk seen st.nextId) (hcur : CurOk st) :
    ∃ seen', textScan ⟨st.currentMessageId, seen⟩ (processChunk st node chunk).2 =
        some ⟨(processChunk st node chunk).1.currentMessageId, seen'⟩ ∧
      SeenOk seen' (processChunk st node chunk).1.nextId ∧
      CurOk (processChunk st node chunk).1 := by
  unfold processChunk
  by_cases hsup : node = "supervisor"
  · rw [if_pos hsup]
    exact ⟨seen, by simp [textScan], hseen, hcur⟩
  · rw [if_neg hsup]
    by_cases hC : node ≠ "" ∧ node ∉ st.activeSteps
    · rw [if_pos hC]
      have hbody := processChunkBody_textScan
        { st with activeSteps := node :: st.activeSteps } chunk seen hseen hcur
      obtain ⟨seen', hscan, hs', hc'⟩ := hbody
      refine ⟨seen', ?_, hs', hc'⟩
      show textScan ⟨st.currentMessageId, seen⟩
        (AGUIEvent.stepStarted node ::
          (processChunkBody { st with activeSteps := node :: st.activeSteps } chunk).2) = _
      rw [show (AGUIEvent.stepStarted node ::
          (processChunkBody { st with activeSteps := node :: st.activeSteps } chunk).2) =
        [AGUIEvent.stepStarted node] ++
          (processChunkBody { st with activeSteps := node :: st.activeSteps } chunk).2 from rfl]
      rw [textScan_append]
      rw [textScan_neutral _ _ (by intro e he; cases List.mem_singleton.mp he; rfl)]
      exact hscan
    · rw [if_neg hC]
      exact processChunkBody_textScan st chunk seen hseen hcur

theorem processModelEnd_textScan (st : NormState) (node : String) (ids : List String)
    (seen : List EId) (hseen : SeenOk seen st.nextId) (hcur : CurOk st) :
    ∃ seen', textScan ⟨st.currentMessageId, seen⟩ (processModelEnd st node ids).2 =
        some ⟨(processModelEnd st node ids).1.currentMessageId, seen'⟩ ∧
      SeenOk seen' (processModelEnd st node ids).1.nextId ∧
      CurOk (processModelEnd st node ids).1 := by
  unfold processModelEnd
  by_cases hsup : node = "supervisor"
  · rw [if_pos hsup]
    exact ⟨seen, by simp [textScan], hseen, hcur⟩
  · rw [if_neg hsup]
    have hends : ∀ e ∈ (ids.filter fun id => id ≠ "" ∧ id ∈ st.emittedToolCalls).map
        AGUIEvent.toolCallEnd, isTextEvent e = false := by
      intro e he
      obtain ⟨id, _, heq⟩ := List.mem_map.mp he
      subst heq
      rfl
    cases hcur2 : st.currentMessageId with
    | some mid =>
      refine ⟨seen, ?_, hseen, ?_⟩
      · rw [textScan_append, textScan_neutral _ _ hends]
        simp [textScan, textStep]
      · intro m h
        cases h
    | none =>
      refine ⟨seen, ?_, hseen, ?_⟩
      · rw [textScan_neutral _ _ hends]
        simp [hcur2]
      · intro m h
        exact hcur m (hcur2.symm ▸ h)

theorem processToolEnd_textScan (st : NormState) (metaId : Option String) (output : String)
    (seen : List EId) (hseen : SeenOk seen st.nextId) (hcur : CurOk st) :
    ∃ seen', textScan ⟨st.currentMessageId, seen⟩ (processToolEnd st metaId output).2 =
        some ⟨(processToolEnd st metaId output).1.currentMessageId, seen'⟩ ∧
      SeenOk seen' (processToolEnd st metaId output).1.nextId ∧
      CurOk (processToolEnd st metaId output).1 := by
  obtain ⟨hc, _, _, _, hn⟩ := toolEndId_state st metaId
  unfold processToolEnd
  by_cases hm : (toolEndId st metaId).1 ∈ (toolEndId st metaId).2.emittedToolResults
  · rw [if_pos hm]
    refine ⟨seen, ?_, SeenOk_mono hn hseen, ?_⟩
    · rw [show textScan ⟨st.currentMessageId, seen⟩ ([] : List AGUIEvent) =
        some ⟨st.currentMessageId, seen⟩ from rfl, hc]
    · intro m h
      exact idBelow_mono hn m (hcur m (hc ▸ h))
  · rw [if_neg hm]
    refine ⟨seen, ?_, SeenOk_mono (Nat.le_trans hn (Nat.le_succ _)) hseen, ?_⟩
    · rw [textScan_neutral _ _ (by
        intro e he
        cases List.mem_singleton.mp he
        rfl)]
      rw [hc]
    · intro m h
      exact idBelow_mono (Nat.le_trans hn (Nat.le_succ _)) m (hcur m (hc ▸ h))

theorem processChainEnd_textScan (st : NormState) (node : String) (top : Bool)
    (seen : List EId) (hseen : SeenOk seen st.nextId) (hcur : CurOk st) :
    ∃ seen', textScan ⟨st.currentMessageId, seen⟩ (processChainEnd st node top).2 =
        some ⟨(processChainEnd st node top).1.currentMessageId, seen'⟩ ∧
      SeenOk seen' (processChainEnd st node top).1.nextId ∧
      CurOk (processChainEnd st node top).1 := by
  unfold processChainEnd
  by_cases hC : node ≠ "" ∧ node ∈ st.activeSteps ∧ top = true
  · rw [if_pos hC]
    cases hcur2 : st.currentMessageId with
    | some mid =>
      refine ⟨seen, ?_, hseen, ?_⟩
      · simp [textScan, textStep, hcur2]
      · intro m h
        cases h
    | none =>
      refine ⟨seen, ?_, hseen, ?_⟩
      · simp [textScan, textStep, hcur2]
      · intro m h
        exact hcur m (hcur2.symm ▸ h)
  · rw [if_neg hC]
    exact ⟨seen, by simp [textScan], hseen, hcur⟩

theorem processOne_textScan (st : NormState) (e : RawEvent) (seen : List EId)
    (hseen : SeenOk seen st.nextId) (hcur : CurOk st) :
    ∃ seen', textScan ⟨st.currentMessageId, seen⟩ (processOne st e).2 =
        some ⟨(processOne st e).1.currentMessageId, seen'⟩ ∧
      SeenOk seen' (processOne st e).1.nextId ∧ CurOk (processOne st e).1 := by
  cases e with
  | chatModelStream node chunk => exact processChunk_textScan st node chunk seen hseen hcur
  | chatModelEnd node ids => exact processModelEnd_textScan st node ids seen hseen hcur
  | toolEnd metaId output => exact processToolEnd_textScan st metaId output seen hseen hcur
  | chainEnd node top => exact processChainEnd_textScan st node top seen hseen hcur
  | other => exact ⟨seen, by simp [processOne, textScan], hseen, hcur⟩

theorem runNorm_textScan (evs : List RawEvent) :
    ∀ (st : NormState) (seen : List EId), SeenOk seen st.nextId → CurOk st →
      ∃ seen', textScan ⟨st.currentMessageId, seen⟩ (runNorm st evs).2 =
          some ⟨(runNorm st evs).1.currentMessageId, seen'⟩ ∧
        SeenOk seen' (runNorm st evs).1.nextId ∧ CurOk (runNorm st evs).1 := by
  induction evs with
  | nil =>
    intro st seen hseen hcur
    exact ⟨seen, by simp [runNorm, textScan], hseen, hcur⟩
  | cons e rest ih =>
    intro st seen hseen hcur
    obtain ⟨seen1, hscan1, hseen1, hcur1⟩ := processOne_textScan st e seen hseen hcur
    obtain ⟨seen2, hscan2, hseen2, hcur2⟩ := ih (processOne st e).1 seen1 hseen1 hcur1
    refine ⟨seen2, ?_, hseen2, hcur2⟩
    show textScan ⟨st.currentMessageId, seen⟩
      ((processOne st e).2 ++ (runNorm (processOne st e).1 rest).2) = _
    rw [textScan_append, hscan1]
    exact hscan2

/-- C1: for every run (every raw signal stream), the emitted protocol
stream is text-well-formed: every `TEXT_MESSAGE_START` has exactly one
later `TEXT_MESSAGE_END` with the same `messageId`, no
`TEXT_MESSAGE_CONTENT` for an id appears before its `START` or after
its `END`, a new text message never starts while one is open, and the
end-of-stream flush synthesizes the final `END` when a turn ended
without an explicit end marker (`textOk` checks exactly these
conditions and additionally that no message is left open). -/
theorem text_message_pairing (evs : List RawEvent) :
    textOk (processStream evs) = true := by
  obtain ⟨seen', hscan, _, _⟩ := runNorm_textScan evs initNormState []
    (fun x hx => absurd hx (List.not_mem_nil x)) (fun mid h => by cases h)
  unfold textOk processStream
  cases hcur : (runNorm initNormState evs).1.currentMessageId with
  | none =>
    rw [hcur] at hscan
    have hscan2 : textScan ⟨none, []⟩ (runNorm initNormState evs).2 =
        some ⟨none, seen'⟩ := hscan
    show (match textScan ⟨none, []⟩ (runNorm initNormState evs).2 with
      | some s => s.openMsg.isNone
      | none => false) = true
    rw [hscan2]
    rfl
  | some m =>
    have hscan2 : textScan ⟨none, []⟩ (runNorm initNormState evs).2 =
        some ⟨some m, seen'⟩ := by
      rw [hcur] at hscan
      exact hscan
    show (match textScan ⟨none, []⟩
        ((runNorm initNormState evs).2 ++ [AGUIEvent.textMessageEnd m]) with
      | some s => s.openMsg.isNone
      | none => false) = true
    rw [textScan_append, hscan2]
    simp [textScan, textStep]

/-! ## C2 — tool-call dedup -/

theorem processToolChunkOne_toolScan (st : NormState) (tc : ToolCallChunk) :
    toolScan ⟨st.emittedToolCalls, st.emittedToolResults⟩ (processToolChunkOne st tc).2 =
      some ⟨(processToolChunkOne st tc).1.emittedToolCalls,
        (processToolChunkOne st tc).1.emittedToolResults⟩ := by
  unfold processToolChunkOne
  by_cases h1 : tc.id ≠ "" ∧ tc.id ∉ st.emittedToolCalls
  · rw [if_pos h1]
    by_cases h2 : tc.id ≠ "" ∧ tc.args ≠ ""
    · rw [if_pos h2]
      simp [toolScan, toolStep, h1.2]
    · rw [if_neg h2]
      simp [toolScan, toolStep, h1.2]
  · rw [if_neg h1]
    by_cases h2 : tc.id ≠ "" ∧ tc.args ≠ ""
    · rw [if_pos h2]
      have hid : tc.id ∈ st.emittedToolCalls := by
        rcases not_and_or.mp h1 with h | h
        · exact absurd h2.1 h
        · exact not_not.mp h
      simp [toolScan, toolStep, hid]
    · rw [if_neg h2]
      simp [toolScan]

theorem processToolChunks_toolScan (tcs : List ToolCallChunk) :
    ∀ st : NormState,
      toolScan ⟨st.emittedToolCalls, st.emittedToolResults⟩ (processToolChunks st tcs).2 =
        some ⟨(processToolChunks st tcs).1.emittedToolCalls,
          (processToolChunks st tcs).1.emittedToolResults⟩ := by
  induction tcs with
  | nil =>
    intro st
    rfl
  | cons tc rest ih =>
    intro st
    show toolScan ⟨st.emittedToolCalls, st.emittedToolResults⟩
      ((processToolChunkOne st tc).2 ++
        (processToolChunks (processToolChunkOne st tc).1 rest).2) = _
    rw [toolScan_append, processToolChunkOne_toolScan]
    exact ih (processToolChunkOne st tc).1

theorem processTextToken_toolScan (st : NormState) (t : String) :
    toolScan ⟨st.emittedToolCalls, st.emittedToolResults⟩ (processTextToken st t).2 =
      some ⟨(processTextToken st t).1.emittedToolCalls,
        (processTextToken st t).1.emittedToolResults⟩ := by
  unfold processTextToken
  by_cases ht : t ≠ ""
  · rw [if_pos ht]
    cases hcur : st.currentMessageId with
    | some mid => simp [toolScan, toolStep]
    | none => simp [toolScan, toolStep]
  · rw [if_neg ht]
    rfl

theorem processChunkBody_toolScan (st : NormState) (chunk : StreamChunk) :
    toolScan ⟨st.emittedToolCalls, st.emittedToolResults⟩ (processChunkBody st chunk).2 =
      some ⟨(processChunkBody st chunk).1.emittedToolCalls,
        (processChunkBody st chunk).1.emittedToolResults⟩ := by
  unfold processChunkBody
  by_cases htc : chunk.toolCallChunks ≠ []
  · rw [if_pos htc]
    exact processToolChunks_toolScan chunk.toolCallChunks st
  · rw [if_neg htc]
    cases hc : chunk.content with
    | some t => exact processTextToken_toolScan st t
    | none => rfl

theorem processChunk_toolScan (st : NormState) (node : String) (chunk : StreamChunk) :
    toolScan ⟨st.emittedToolCalls, st.emittedToolResults⟩ (processChunk st node chunk).2 =
      some ⟨(processChunk st node chunk).1.emittedToolCalls,
        (processChunk st node chunk).1.emittedToolResults⟩ := by
  unfold processChunk
  by_cases hsup : node = "supervisor"
  · rw [if_pos hsup]
    rfl
  · rw [if_neg hsup]
    by_cases hC : node ≠ "" ∧ node ∉ st.activeSteps
    · rw [if_pos hC]
      show toolScan ⟨st.emittedToolCalls, st.emittedToolResults⟩
        (AGUIEvent.stepStarted node ::
          (processChunkBody { st with activeSteps := node :: st.activeSteps } chunk).2) = _
      unfold toolScan
      rw [show toolStep ⟨st.emittedToolCalls, st.emittedToolResults⟩
        (AGUIEvent.stepStarted node) =
          some ⟨st.emittedToolCalls, st.emittedToolResults⟩ from rfl]
      exact processChunkBody_toolScan { st with activeSteps := node :: st.activeSteps } chunk
    · rw [if_neg hC]
      exact processChunkBody_toolScan st chunk

theorem toolScan_toolCallEnds (calls : List String) (res : List EId) :
    ∀ l : List String, (∀ id ∈ l, id ∈ calls) →
      toolScan ⟨calls, res⟩ (l.map AGUIEvent.toolCallEnd) = some ⟨calls, res⟩ := by
  intro l
  induction l with
  | nil => intro _; rfl
  | cons a t ih =>
    intro h
    have ha : a ∈ calls := h a (List.mem_cons_self a t)
    have hstep : toolStep ⟨calls, res⟩ (AGUIEvent.toolCallEnd a) = some ⟨calls, res⟩ := by
      simp [toolStep, ha]
    show toolScan ⟨calls, res⟩
      (AGUIEvent.toolCallEnd a :: t.map AGUIEvent.toolCallEnd) = some ⟨calls, res⟩
    unfold toolScan
    rw [hstep]
    exact ih fun id hid => h id (List.mem_cons_of_mem a hid)

theorem processModelEnd_toolScan (st : NormState) (node : String) (ids : List String) :
    toolScan ⟨st.emittedToolCalls, st.emittedToolResults⟩ (processModelEnd st node ids).2 =
      some ⟨(processModelEnd st node ids).1.emittedToolCalls,
        (processModelEnd st node ids).1.emittedToolResults⟩ := by
  unfold processModelEnd
  by_cases hsup : node = "supervisor"
  · rw [if_pos hsup]
    rfl
  · rw [if_neg hsup]
    have hends := toolScan_toolCallEnds st.emittedToolCalls st.emittedToolResults
      (ids.filter fun id => id ≠ "" ∧ id ∈ st.emittedToolCalls)
      (fun id hid => (of_decide_eq_true (List.mem_filter.mp hid).2).2)
    cases hcur : st.currentMessageId with
    | some mid =>
      rw [toolScan_append, hends]
      rfl
    | none =>
      rw [hends]

theorem processToolEnd_toolScan (st : NormState) (metaId : Option String) (output : String) :
    toolScan ⟨st.emittedToolCalls, st.emittedToolResults⟩
        (processToolEnd st metaId output).2 =
      some ⟨(processToolEnd st metaId output).1.emittedToolCalls,
        (processToolEnd st metaId output).1.emittedToolResults⟩ := by
  obtain ⟨_, _, hcalls, hres, _⟩ := toolEndId_state st metaId
  unfold processToolEnd
  by_cases hm : (toolEndId st metaId).1 ∈ (toolEndId st metaId).2.emittedToolResults
  · rw [if_pos hm]
    rw [show toolScan ⟨st.emittedToolCalls, st.emittedToolResults⟩ ([] : List AGUIEvent) =
      some ⟨st.emittedToolCalls, st.emittedToolResults⟩ from rfl, hcalls, hres]
  · rw [if_neg hm]
    have hm2 : (toolEndId st metaId).1 ∉ st.emittedToolResults := fun hx =>
      hm (hres ▸ hx)
    simp [toolScan, toolStep, hm2, hcalls, hres]

theorem processChainEnd_toolScan (st : NormState) (node : String) (top : Bool) :
    toolScan ⟨st.emittedToolCalls, st.emittedToolResults⟩
        (processChainEnd st node top).2 =
      some ⟨(processChainEnd st node top).1.emittedToolCalls,
        (processChainEnd st node top).1.emittedToolResults⟩ := by
  unfold processChainEnd
  by_cases hC : node ≠ "" ∧ node ∈ st.activeSteps ∧ top = true
  · rw [if_pos hC]
    cases hcur : st.currentMessageId with
    | some mid => simp [toolScan, toolStep]
    | none => simp [toolScan, toolStep]
  · rw [if_neg hC]
    rfl

theorem processOne_toolScan (st : NormState) (e : RawEvent) :
    toolScan ⟨st.emittedToolCalls, st.emittedToolResults⟩ (processOne st e).2 =
      some ⟨(processOne st e).1.emittedToolCalls,
        (processOne st e).1.emittedToolResults⟩ := by
  cases e with
  | chatModelStream node chunk => exact processChunk_toolScan st node chunk
  | chatModelEnd node ids => exact processModelEnd_toolScan st node ids
  | toolEnd metaId output => exact processToolEnd_toolScan st metaId output
  | chainEnd node top => exact processChainEnd_toolScan st node top
  | other => rfl

theorem runNorm_toolScan (evs : List RawEvent) :
    ∀ st : NormState,
      toolScan ⟨st.emittedToolCalls, st.emittedToolResults⟩ (runNorm st evs).2 =
        some ⟨(runNorm st evs).1.emittedToolCalls,
          (runNorm st evs).1.emittedToolResults⟩ := by
  induction evs with
  | nil =>
    intro st
    rfl
  | cons e rest ih =>
    intro st
    show toolScan ⟨st.emittedToolCalls, st.emittedToolResults⟩
      ((processOne st e).2 ++ (runNorm (processOne st e).1 rest).2) = _
    rw [toolScan_append, processOne_toolScan]
    exact ih (processOne st e).1

/-- C2 counterexample: when the model-end completion signal for tool
call `t1` arrives twice, the emitted stream contains two
`TOOL_CALL_END` events for `t1` and no `TOOL_CALL_RESULT` at all — the
stream is not one `START → ARGS* → END → RESULT` sequence per tool-call
id, so that part of the claim fails. -/
theorem tool_call_sequence_counterexample :
    countToolCallEnds "t1" (processStream dupEndRawEvents) = 2 ∧
      countToolCallResults (EId.ext "t1") (processStream dupEndRawEvents) = 0 := by
  constructor
  · rfl
  · rfl

/-- C2 amended: for every run and every distinct tool-call id, the
stream contains at most one `TOOL_CALL_START` and at most one
`TOOL_CALL_RESULT` (duplicate tool-completion signals for an id are
dropped), and every `TOOL_CALL_ARGS`/`TOOL_CALL_END` for an id follows
that id's single `TOOL_CALL_START`; `TOOL_CALL_END` is not
deduplicated, and the full `START → ARGS* → END → RESULT` shape is not
enforced (`toolOk` checks exactly the amended discipline). -/
theorem tool_call_dedup (evs : List RawEvent) :
    toolOk (processStream evs) = true := by
  have hscan := runNorm_toolScan evs initNormState
  unfold toolOk processStream
  cases hcur : (runNorm initNormState evs).1.currentMessageId with
  | none =>
    show (toolScan ⟨[], []⟩ (runNorm initNormState evs).2).isSome = true
    rw [show (⟨[], []⟩ : ToolScanState) =
      ⟨initNormState.emittedToolCalls, initNormState.emittedToolResults⟩ from rfl, hscan]
    rfl
  | some m =>
    show (toolScan ⟨[], []⟩
      ((runNorm initNormState evs).2 ++ [AGUIEvent.textMessageEnd m])).isSome = true
    rw [toolScan_append,
      show (⟨[], []⟩ : ToolScanState) =
        ⟨initNormState.emittedToolCalls, initNormState.emittedToolResults⟩ from rfl, hscan]
    rfl

end NestAgent
